import Mathlib

/-!
Verification development for the image-cad-converter repository.

Shallow embedding of the image-to-CAD pipeline, together with proofs about
its behavior.  Sources embedded:

* src/utils/cadGeneration.ts : generateDXF, generateSVG, generateJSON,
  generateCADOutput, applySobelEdgeDetection, applyLaplacianEdgeDetection,
  applyEdgeDetection (with its grayscale pass), extractLinesFromEdges,
  traceLine
* src/components/ThreeJSViewer-simple.tsx : calculateScale,
  categorizeDetectedFeatures

Modelling conventions: JavaScript numbers are modelled as exact rationals
(decimal literals such as 0.299 become 299/1000); the Uint8ClampedArray
store conversion (clamp to [0,255], round to nearest, ties to even) is
modelled by clampByte; a comparison `Math.sqrt s > t` is modelled by the
computable predicate sqrtGtQ on the squared quantity, proved equivalent to
the Real.sqrt form; the wall clock read by generateJSON via
`new Date().toISOString()` is an explicit argument; string-typed TS union
values ("yacht", "dxf", ...) are modelled as Lean strings so that
out-of-range runtime values are expressible.
-/

/-- Semantic feature labels, from the YachtFeature type union in
src/types/index.ts. -/
inductive FType where
  | hull_profile
  | waterline
  | mast
  | deck_edge
  | cabin
  | keel
  deriving DecidableEq, Repr

/-- A pixel-space point, from the Point interface in src/types/index.ts. -/
structure Point where
  x : ℚ
  y : ℚ
  deriving DecidableEq, Repr

/-- A labeled feature, from the YachtFeature interface in
src/types/index.ts.  The optional open metadata bag is omitted from the
model: no claim concerns its contents, and generateJSON drops an undefined
metadata property when serializing. -/
structure YachtFeature where
  type : FType
  points : List Point
  confidence : ℚ
  deriving DecidableEq, Repr

/-- A reference point with insertion-order id, from the ReferencePoint
interface in src/types/index.ts. -/
structure ReferencePoint where
  x : ℚ
  y : ℚ
  id : ℕ
  deriving DecidableEq, Repr

/-- A canvas-style RGBA buffer: flat byte store plus dimensions, modelling
the ImageData objects used by cadGeneration.ts.  The data function models
the Uint8ClampedArray with byte index access. -/
structure ImageData where
  width : ℕ
  height : ℕ
  data : ℕ → ℕ

/-- Rounding to the nearest integer with ties to even, the conversion a
Uint8ClampedArray store applies to a non-integral JS number. -/
def roundHalfEven (q : ℚ) : ℤ :=
  let f := ⌊q⌋
  let r := q - f
  if r < 1 / 2 then f
  else if 1 / 2 < r then f + 1
  else if 2 ∣ f then f else f + 1

/-- The full Uint8ClampedArray store conversion: clamp to [0, 255] and
round to the nearest integer, ties to even. -/
def clampByte (q : ℚ) : ℕ :=
  (min 255 (max 0 (roundHalfEven q))).toNat

/-- The luminance computed by the grayscale loop of applyEdgeDetection
(cadGeneration.ts line 271):
`data[i] * 0.299 + data[i + 1] * 0.587 + data[i + 2] * 0.114`. -/
def grayVal (d : ℕ → ℕ) (base : ℕ) : ℚ :=
  (d base : ℚ) * (299 / 1000) + (d (base + 1) : ℚ) * (587 / 1000)
    + (d (base + 2) : ℚ) * (114 / 1000)

/-- The grayscale pass of applyEdgeDetection (cadGeneration.ts lines
270-273), as a function on the byte store: the loop walks i = 0, 4, 8, ...
while i < data.length and stores the luminance into channels i, i+1, i+2,
leaving channel i+3 (alpha) and out-of-range indices unchanged. -/
def grayscaleData (d : ℕ → ℕ) (len : ℕ) : ℕ → ℕ := fun j =>
  if j < len ∧ j % 4 ≠ 3 then clampByte (grayVal d (j - j % 4)) else d j

/-- Decidable comparison modelling `Math.sqrt s > t` (for 0 ≤ s) without
leaving the rationals; see sqrtGtQ_iff. -/
def sqrtGtQ (s t : ℚ) : Bool :=
  decide (t < 0 ∨ t ^ 2 < s)

/-- Decidable comparison modelling `Math.sqrt s ≥ t` (for 0 ≤ s) without
leaving the rationals; see sqrtGeQ_iff. -/
def sqrtGeQ (s t : ℚ) : Bool :=
  decide (t ≤ 0 ∨ t ^ 2 ≤ s)

/-- Red-channel read `data[((y * width) + x) * 4]` used by both edge
operators and the line tracer. -/
def pixAt (d : ℕ → ℕ) (w x y : ℕ) : ℤ :=
  (d ((y * w + x) * 4) : ℤ)

/-- Interior-pixel test matching the loop ranges
`for (y = 1; y < height - 1; ...) for (x = 1; x < width - 1; ...)` of both
edge operators. -/
def interiorPix (w h x y : ℕ) : Prop :=
  1 ≤ x ∧ x + 1 < w ∧ 1 ≤ y ∧ y + 1 < h

instance (w h x y : ℕ) : Decidable (interiorPix w h x y) := by
  unfold interiorPix
  infer_instance

/-- Sobel horizontal gradient Gx (cadGeneration.ts line 207):
`tr + 2 * mr + br - (tl + 2 * ml + bl)`. -/
def sobelGx (d : ℕ → ℕ) (w x y : ℕ) : ℤ :=
  (pixAt d w (x + 1) (y - 1) + 2 * pixAt d w (x + 1) y + pixAt d w (x + 1) (y + 1))
    - (pixAt d w (x - 1) (y - 1) + 2 * pixAt d w (x - 1) y + pixAt d w (x - 1) (y + 1))

/-- Sobel vertical gradient Gy (cadGeneration.ts line 208):
`bl + 2 * bm + br - (tl + 2 * tm + tr)`. -/
def sobelGy (d : ℕ → ℕ) (w x y : ℕ) : ℤ :=
  (pixAt d w (x - 1) (y + 1) + 2 * pixAt d w x (y + 1) + pixAt d w (x + 1) (y + 1))
    - (pixAt d w (x - 1) (y - 1) + 2 * pixAt d w x (y - 1) + pixAt d w (x + 1) (y - 1))

/-- The binary Sobel intensity: 255 when `sqrt (gx * gx + gy * gy)` exceeds
the threshold, else 0 (cadGeneration.ts lines 209-211). -/
def sobelEdgeVal (d : ℕ → ℕ) (w x y : ℕ) (thr : ℚ) : ℕ :=
  if sqrtGtQ ((sobelGx d w x y ^ 2 + sobelGy d w x y ^ 2 : ℤ) : ℚ) thr then 255 else 0

/-- The Laplacian convolution sum with kernel [[0,-1,0],[-1,4,-1],[0,-1,0]]
(cadGeneration.ts lines 231-247). -/
def lapSum (d : ℕ → ℕ) (w x y : ℕ) : ℤ :=
  4 * pixAt d w x y - pixAt d w x (y - 1) - pixAt d w (x - 1) y
    - pixAt d w (x + 1) y - pixAt d w x (y + 1)

/-- The binary Laplacian intensity: 255 when |sum| exceeds the threshold,
else 0 (cadGeneration.ts line 249). -/
def lapEdgeVal (d : ℕ → ℕ) (w x y : ℕ) (thr : ℚ) : ℕ :=
  if thr < ((lapSum d w x y).natAbs : ℚ) then 255 else 0

/-- applySobelEdgeDetection (cadGeneration.ts lines 184-220).  The output
ImageData starts all-zero; the loops store the binary intensity into the
three color channels and 255 into alpha for interior pixels only.  The
byte index i decodes to pixel (x, y) = ((i / 4) % w, (i / 4) / w) and
channel i % 4. -/
def applySobelEdgeDetection (d : ℕ → ℕ) (w h : ℕ) (thr : ℚ) : ImageData :=
  ⟨w, h, fun i =>
    if interiorPix w h ((i / 4) % w) ((i / 4) / w) then
      (if i % 4 = 3 then 255 else sobelEdgeVal d w ((i / 4) % w) ((i / 4) / w) thr)
    else 0⟩

/-- applyLaplacianEdgeDetection (cadGeneration.ts lines 222-258), with the
same all-zero initialization and interior-only writes. -/
def applyLaplacianEdgeDetection (d : ℕ → ℕ) (w h : ℕ) (thr : ℚ) : ImageData :=
  ⟨w, h, fun i =>
    if interiorPix w h ((i / 4) % w) ((i / 4) / w) then
      (if i % 4 = 3 then 255 else lapEdgeVal d w ((i / 4) % w) ((i / 4) / w) thr)
    else 0⟩

/-- applyEdgeDetection (cadGeneration.ts lines 260-285): copy the buffer,
reduce to grayscale, then dispatch on the method string; "canny" falls
through to the Sobel case; any other value returns the input unchanged. -/
def applyEdgeDetection (img : ImageData) (method : String) (thr : ℚ) : ImageData :=
  let d := grayscaleData img.data (img.width * img.height * 4)
  if method = "canny" ∨ method = "sobel" then
    applySobelEdgeDetection d img.width img.height thr
  else if method = "laplacian" then
    applyLaplacianEdgeDetection d img.width img.height thr
  else img

/-! ## Feature classifier (ThreeJSViewer-simple.tsx, categorizeDetectedFeatures) -/

/-- Squared endpoint-to-endpoint distance of a point list: the quantity
under the Math.sqrt in the length computations of
categorizeDetectedFeatures (lines 527-530 and 542-545). -/
def chordSq (ps : List Point) : ℚ :=
  let fp := ps.getD 0 ⟨0, 0⟩
  let lp := ps.getD (ps.length - 1) ⟨0, 0⟩
  (lp.x - fp.x) ^ 2 + (lp.y - fp.y) ^ 2

/-- The first-pass filter of categorizeDetectedFeatures (lines 521-534):
discard features with fewer than 3 points or endpoint chord length
below 20 pixels. -/
def classifierKeep (f : YachtFeature) : Bool :=
  if f.points.length < 3 then false
  else sqrtGeQ (chordSq f.points) 20

/-- The per-feature map body of categorizeDetectedFeatures (lines
535-655), without the metadata construction (no claim concerns it).
The index argument mirrors the map index used by the round-robin seed
assignment in the non-yacht branch; that seed is overwritten by every
branch of the heuristic, which the definition mirrors by binding and
ignoring it. -/
def categorizeOne (mode : String) (w h : ℚ) (index : ℕ) (f : YachtFeature) : YachtFeature :=
  if f.points.length < 2 then f
  else
    let fp := f.points.getD 0 ⟨0, 0⟩
    let lp := f.points.getD (f.points.length - 1) ⟨0, 0⟩
    let lengthSq := (lp.x - fp.x) ^ 2 + (lp.y - fp.y) ^ 2
    let deltaX := |lp.x - fp.x|
    let deltaY := |lp.y - fp.y|
    let isHorizontal := deltaY < deltaX
    let isVertical := deltaX < deltaY
    let avgY := ((f.points.map Point.y).sum) / f.points.length
    if mode = "yacht" then
      if isHorizontal ∧ sqrtGtQ lengthSq (w * (3 / 10)) then
        if h * (7 / 10) < avgY then
          { f with type := .waterline, confidence := 9 / 10 }
        else if avgY < h * (3 / 10) then
          { f with type := .deck_edge, confidence := 8 / 10 }
        else
          { f with type := .hull_profile, confidence := 85 / 100 }
      else if isVertical ∧ sqrtGtQ lengthSq (h * (4 / 10)) then
        { f with type := .mast, confidence := 8 / 10 }
      else if sqrtGtQ lengthSq (min w h * (2 / 10)) then
        { f with type := .hull_profile, confidence := 75 / 100 }
      else
        { f with type := .deck_edge, confidence := 6 / 10 }
    else
      let _seed := [FType.hull_profile, .waterline, .mast, .deck_edge, .cabin,
        .keel].getD (index % 6) .hull_profile
      if isHorizontal ∧ sqrtGtQ lengthSq (w * (3 / 10)) then
        if avgY < h * (3 / 10) then
          { f with type := .deck_edge, confidence := 8 / 10 }
        else if h * (7 / 10) < avgY then
          { f with type := .waterline, confidence := 8 / 10 }
        else
          { f with type := .hull_profile, confidence := 7 / 10 }
      else if isVertical ∧ sqrtGtQ lengthSq (h * (4 / 10)) then
        { f with type := .mast, confidence := 8 / 10 }
      else if sqrtGtQ lengthSq (min w h * (15 / 100)) then
        { f with type := .cabin, confidence := 7 / 10 }
      else
        { f with type := .keel, confidence := 6 / 10 }

/-- Filter-then-map-with-index loop of categorizeDetectedFeatures, fused:
the map index counts only the surviving features, exactly as mapping over
the filtered list does in the source. -/
def categorizeGo (w h : ℚ) (mode : String) (index : ℕ) :
    List YachtFeature → List YachtFeature
  | [] => []
  | f :: rest =>
    if classifierKeep f then
      categorizeOne mode w h index f :: categorizeGo w h mode (index + 1) rest
    else categorizeGo w h mode index rest

/-- categorizeDetectedFeatures (ThreeJSViewer-simple.tsx lines 513-658). -/
def categorizeDetectedFeatures (raw : List YachtFeature) (w h : ℚ)
    (mode : String) : List YachtFeature :=
  categorizeGo w h mode 0 raw

/-! ## Scale calibrator (ThreeJSViewer-simple.tsx, calculateScale) -/

/-- The component state read and written by calculateScale. -/
structure ScaleState where
  scalePoints : List ReferencePoint
  knownDistance : ℚ
  pixelsPerMM : ℝ
  isScaleMode : Bool

/-- calculateScale (ThreeJSViewer-simple.tsx lines 412-426).  The guard
`scalePoints.length !== 2 || !knownDistance` returns with no state change;
`!knownDistance` is the JS falsiness test, true exactly for a zero
distance.  Otherwise the pixel distance between the two points is divided
by the known distance converted to millimeters, and the result replaces
pixelsPerMM. -/
noncomputable def calculateScale (s : ScaleState) : ScaleState :=
  match s.scalePoints with
  | [point1, point2] =>
    if s.knownDistance = 0 then s
    else
      let pixelDistance : ℝ :=
        Real.sqrt (((point2.x - point1.x) ^ 2 + (point2.y - point1.y) ^ 2 : ℚ) : ℝ)
      let distanceInMM : ℚ := s.knownDistance * 1000
      { s with pixelsPerMM := pixelDistance / (distanceInMM : ℝ),
               isScaleMode := false }
  | _ => s

/-! ## CAD serializers (cadGeneration.ts, generateDXF / generateSVG /
generateJSON / generateCADOutput) -/

/-- Three-digit zero-padded fragment for a natural number below 1000. -/
def fracStr3 (m : ℕ) : String :=
  if m < 10 then "00" ++ Nat.repr m
  else if m < 100 then "0" ++ Nat.repr m
  else Nat.repr m

/-- The integer nearest to 1000 q, ties toward plus infinity, for
non-negative q: the integer n the ECMAScript toFixed(3) algorithm selects.
Computed by integer arithmetic on the reduced fraction so that it
evaluates inside the kernel. -/
def milRound (q : ℚ) : ℕ :=
  ((2000 * q.num + (q.den : ℤ)) / (2 * (q.den : ℤ))).toNat

/-- toFixed(3) on a non-negative rational: the nearest multiple of 1/1000,
ties away from zero, printed with exactly three decimals. -/
def toFixed3Nonneg (q : ℚ) : String :=
  let n := milRound q
  Nat.repr (n / 1000) ++ "." ++ fracStr3 (n % 1000)

/-- JS Number.prototype.toFixed(3), following the ECMAScript split into a
sign and a non-negative conversion. -/
def qToFixed3 (q : ℚ) : String :=
  if q < 0 then "-" ++ toFixed3Nonneg (-q) else toFixed3Nonneg q

/-- Integer printing. -/
def intStr (n : ℤ) : String :=
  if n < 0 then "-" ++ Nat.repr n.natAbs else Nat.repr n.natAbs

/-- JS default number-to-string conversion as used by template literals.
Exact for integral values, which are the only values the claims exercise
through it; non-integral values fall back to the three-decimal form. -/
def qToStr (q : ℚ) : String :=
  if q.den = 1 then intStr q.num else qToFixed3 q

/-- The `feature.type` strings of the TS union. -/
def ftypeName : FType → String
  | .hull_profile => "hull_profile"
  | .waterline => "waterline"
  | .mast => "mast"
  | .deck_edge => "deck_edge"
  | .cabin => "cabin"
  | .keel => "keel"

/-- `feature.type.toUpperCase()`. -/
def ftypeUpper : FType → String
  | .hull_profile => "HULL_PROFILE"
  | .waterline => "WATERLINE"
  | .mast => "MAST"
  | .deck_edge => "DECK_EDGE"
  | .cabin => "CABIN"
  | .keel => "KEEL"

/-- One VERTEX record of the DXF polyline branch (cadGeneration.ts lines
29-41): coordinates are divided by scale and formatted with toFixed(3). -/
def dxfVertex (layer : String) (scale : ℚ) (p : Point) : String :=
  "0\nVERTEX\n8\n" ++ layer ++ "\n10\n" ++ qToFixed3 (p.x / scale)
    ++ "\n20\n" ++ qToFixed3 (p.y / scale) ++ "\n"

/-- The per-feature body of generateDXF (cadGeneration.ts lines 18-64):
POLYLINE with vertices for hull_profile/deck_edge, a single LINE between
first and last point for other kinds with at least two points, and nothing
otherwise. -/
def dxfFeatureStr (index : ℕ) (scale : ℚ) (f : YachtFeature) : String :=
  if f.type = .hull_profile ∨ f.type = .deck_edge then
    "0\nPOLYLINE\n8\n" ++ ftypeUpper f.type ++ "\n62\n" ++ Nat.repr (index + 1)
      ++ "\n70\n0\n"
      ++ String.join (f.points.map (dxfVertex (ftypeUpper f.type) scale))
      ++ "0\nSEQEND\n"
  else if 2 ≤ f.points.length then
    let p1 := f.points.getD 0 ⟨0, 0⟩
    let p2 := f.points.getD (f.points.length - 1) ⟨0, 0⟩
    "0\nLINE\n8\n" ++ ftypeUpper f.type ++ "\n62\n" ++ Nat.repr (index + 1)
      ++ "\n10\n" ++ qToFixed3 (p1.x / scale) ++ "\n20\n" ++ qToFixed3 (p1.y / scale)
      ++ "\n11\n" ++ qToFixed3 (p2.x / scale) ++ "\n21\n" ++ qToFixed3 (p2.y / scale)
      ++ "\n"
  else ""

/-- The forEach-with-index loop of generateDXF. -/
def dxfGo (scale : ℚ) (index : ℕ) : List YachtFeature → String
  | [] => ""
  | f :: rest => dxfFeatureStr index scale f ++ dxfGo scale (index + 1) rest

/-- generateDXF (cadGeneration.ts lines 8-72). -/
def generateDXF (features : List YachtFeature) (scale : ℚ) : String :=
  "0\nSECTION\n2\nENTITIES\n" ++ dxfGo scale 0 features ++ "0\nENDSEC\n0\nEOF"

/-- The path data string of the SVG hull_profile/deck_edge branch
(cadGeneration.ts lines 96-99): raw pixel coordinates. -/
def svgPathD : List Point → String
  | [] => ""
  | p0 :: rest =>
    "M " ++ qToStr p0.x ++ " " ++ qToStr p0.y
      ++ String.join (rest.map (fun p => " L " ++ qToStr p.x ++ " " ++ qToStr p.y))

/-- The per-feature body of generateSVG (cadGeneration.ts lines 93-107):
a path for hull_profile/deck_edge with at least one point, a line between
first and last point for other kinds with at least two points, nothing
otherwise.  All coordinates are interpolated raw (not divided by
scale). -/
def svgFeatureStr (f : YachtFeature) : String :=
  if f.type = .hull_profile ∨ f.type = .deck_edge then
    if 0 < f.points.length then
      "  <path d=\"" ++ svgPathD f.points ++ "\" class=\"" ++ ftypeName f.type
        ++ "\" />\n"
    else ""
  else if 2 ≤ f.points.length then
    let p1 := f.points.getD 0 ⟨0, 0⟩
    let p2 := f.points.getD (f.points.length - 1) ⟨0, 0⟩
    "  <line x1=\"" ++ qToStr p1.x ++ "\" y1=\"" ++ qToStr p1.y ++ "\" x2=\""
      ++ qToStr p2.x ++ "\" y2=\"" ++ qToStr p2.y ++ "\" class=\""
      ++ ftypeName f.type ++ "\" />\n"
  else ""

/-- The fixed svg header with embedded style block (cadGeneration.ts lines
80-91). -/
def svgHeader (w h : ℚ) : String :=
  "<svg width=\"" ++ qToStr w ++ "\" height=\"" ++ qToStr h
    ++ "\" xmlns=\"http://www.w3.org/2000/svg\">\n  <defs>\n    <style>\n"
    ++ "      .hull_profile \x7b stroke: #2c5aa0; stroke-width: 2; fill: none; \x7d\n"
    ++ "      .waterline \x7b stroke: #4a90e2; stroke-width: 3; \x7d\n"
    ++ "      .mast \x7b stroke: #8b4513; stroke-width: 4; \x7d\n"
    ++ "      .deck_edge \x7b stroke: #d2b48c; stroke-width: 2; fill: none; \x7d\n"
    ++ "      .cabin \x7b stroke: #8fbc8f; stroke-width: 2; fill: none; \x7d\n"
    ++ "      .keel \x7b stroke: #2f4f4f; stroke-width: 3; \x7d\n"
    ++ "    </style>\n  </defs>\n"

/-- generateSVG (cadGeneration.ts lines 74-111).  The scale parameter is
accepted but never applied to any coordinate in the source; the model
keeps the unused parameter. -/
def generateSVG (features : List YachtFeature) (scale : ℚ)
    (canvasWidth canvasHeight : ℚ) : String :=
  svgHeader canvasWidth canvasHeight
    ++ String.join (features.map svgFeatureStr) ++ "</svg>"

/-- The exact rational value denoted by `parseFloat(q.toFixed(3))`: the
nearest multiple of 1/1000, ties away from zero. -/
def jsToFixedVal3 (q : ℚ) : ℚ :=
  if q < 0 then -((⌊-q * 1000 + 1 / 2⌋ : ℚ) / 1000)
  else (⌊q * 1000 + 1 / 2⌋ : ℚ) / 1000

/-- Minimal fractional suffix (as JSON.stringify prints numbers): the
three-decimal fraction with trailing zeros removed, empty when zero. -/
def fracStrMin (m : ℕ) : String :=
  if m = 0 then ""
  else if m % 10 ≠ 0 then "." ++ fracStr3 m
  else if m % 100 ≠ 0 then
    "." ++ (if m / 10 < 10 then "0" ++ Nat.repr (m / 10) else Nat.repr (m / 10))
  else "." ++ Nat.repr (m / 100)

/-- JSON number printing, exact for rationals whose denominator divides
1000 (every value generateJSON prints is of that shape or integral). -/
def jsonNumStr (q : ℚ) : String :=
  if q < 0 then
    "-" ++ (Nat.repr (milRound (-q) / 1000) ++ fracStrMin (milRound (-q) % 1000))
  else
    Nat.repr (milRound q / 1000) ++ fracStrMin (milRound q % 1000)

/-- One serialized point object of the features array of generateJSON
(cadGeneration.ts lines 140-143), at the given indentation. -/
def jsonPointObj (ind : String) (x y : ℚ) : String :=
  ind ++ "\x7b\n" ++ ind ++ "  \"x\": " ++ jsonNumStr x ++ ",\n"
    ++ ind ++ "  \"y\": " ++ jsonNumStr y ++ "\n" ++ ind ++ "\x7d"

/-- JSON.stringify array layout with two-space indentation. -/
def jsonArr (ind : String) (elems : List String) : String :=
  match elems with
  | [] => "[]"
  | _ => "[\n" ++ String.intercalate ",\n" elems ++ "\n" ++ ind ++ "]"

/-- One serialized feature of generateJSON (cadGeneration.ts lines
138-144): the spread keeps key order type, points, confidence; points are
divided by scale and passed through parseFloat(toFixed(3)). -/
def jsonFeatureObj (scale : ℚ) (ind : String) (f : YachtFeature) : String :=
  ind ++ "\x7b\n"
    ++ ind ++ "  \"type\": \"" ++ ftypeName f.type ++ "\",\n"
    ++ ind ++ "  \"points\": "
    ++ jsonArr (ind ++ "  ")
      (f.points.map (fun p =>
        jsonPointObj (ind ++ "    ") (jsToFixedVal3 (p.x / scale))
          (jsToFixedVal3 (p.y / scale))))
    ++ ",\n"
    ++ ind ++ "  \"confidence\": " ++ jsonNumStr f.confidence ++ "\n"
    ++ ind ++ "\x7d"

/-- One serialized reference point of generateJSON (cadGeneration.ts lines
145-149). -/
def jsonRefObj (scale : ℚ) (ind : String) (p : ReferencePoint) : String :=
  ind ++ "\x7b\n" ++ ind ++ "  \"x\": " ++ jsonNumStr (jsToFixedVal3 (p.x / scale))
    ++ ",\n" ++ ind ++ "  \"y\": " ++ jsonNumStr (jsToFixedVal3 (p.y / scale))
    ++ ",\n" ++ ind ++ "  \"id\": " ++ Nat.repr p.id ++ "\n" ++ ind ++ "\x7d"

/-- generateJSON (cadGeneration.ts lines 113-153), as the exact
JSON.stringify(output, null, 2) text.  The wall-clock ISO timestamp read
by `new Date().toISOString()` is the explicit `now` argument; the optional
original image is its natural width and height; an undefined
originalDimensions property is omitted by JSON.stringify. -/
def generateJSON (features : List YachtFeature) (scale : ℚ)
    (referencePoints : List ReferencePoint) (canvasWidth canvasHeight : ℕ)
    (originalImage : Option (ℕ × ℕ)) (now : String) : String :=
  "\x7b\n  \"metadata\": \x7b\n    \"generator\": \"Yacht Photo to CAD Converter v2.0\",\n    \"scale\": "
    ++ jsonNumStr scale
    ++ ",\n    \"units\": \"meters\",\n    \"timestamp\": \"" ++ now
    ++ "\",\n    \"imageInfo\": \x7b\n      \"width\": " ++ Nat.repr canvasWidth
    ++ ",\n      \"height\": " ++ Nat.repr canvasHeight
    ++ (match originalImage with
        | none => ""
        | some wh =>
          ",\n      \"originalDimensions\": \x7b\n        \"width\": "
            ++ Nat.repr wh.1 ++ ",\n        \"height\": " ++ Nat.repr wh.2
            ++ "\n      \x7d")
    ++ "\n    \x7d\n  \x7d,\n  \"features\": "
    ++ jsonArr "  " (features.map (jsonFeatureObj scale "    "))
    ++ ",\n  \"referencePoints\": "
    ++ jsonArr "  " (referencePoints.map (jsonRefObj scale "    "))
    ++ "\n\x7d"

/-- generateCADOutput (cadGeneration.ts lines 155-181): dispatch on the
format string, with the default switch branch returning the empty
string. -/
def generateCADOutput (features : List YachtFeature) (format : String)
    (scale : ℚ) (referencePoints : List ReferencePoint)
    (canvasWidth canvasHeight : ℕ) (originalImage : Option (ℕ × ℕ))
    (now : String) : String :=
  if format = "dxf" then generateDXF features scale
  else if format = "svg" then
    generateSVG features scale (canvasWidth : ℚ) (canvasHeight : ℚ)
  else if format = "json" then
    generateJSON features scale referencePoints canvasWidth canvasHeight
      originalImage now
  else ""

/-! ## Line tracer (cadGeneration.ts, extractLinesFromEdges / traceLine) -/

/-- A pixel coordinate. -/
abbrev Pt := ℕ × ℕ

/-- The red-channel intensity test `data[(y * width + x) * 4] > 128` that
classifies a pixel as an edge (on) pixel, together with the bounds of the
buffer. -/
def onPix (img : ImageData) (p : Pt) : Prop :=
  p.1 < img.width ∧ p.2 < img.height ∧
    128 < img.data ((p.2 * img.width + p.1) * 4)

instance (img : ImageData) (p : Pt) : Decidable (onPix img p) := by
  unfold onPix
  infer_instance

/-- The eight neighbor offsets in the iteration order of the nested
dy/dx loops of traceLine (cadGeneration.ts lines 345-347), the (0,0)
offset skipped. -/
def nbrOffsets : List (ℤ × ℤ) :=
  [(-1, -1), (0, -1), (1, -1), (-1, 0), (1, 0), (-1, 1), (0, 1), (1, 1)]

/-- The in-bounds 8-neighborhood of a pixel, in loop order (cadGeneration.ts
lines 345-359). -/
def nbrs (w h : ℕ) (p : Pt) : List Pt :=
  nbrOffsets.filterMap (fun d =>
    let nx : ℤ := (p.1 : ℤ) + d.1
    let ny : ℤ := (p.2 : ℤ) + d.2
    if 0 ≤ nx ∧ nx < (w : ℤ) ∧ 0 ≤ ny ∧ ny < (h : ℤ) then
      some (nx.toNat, ny.toNat)
    else none)

/-- The while loop of traceLine (cadGeneration.ts lines 333-362), with the
stack head as its top (JS push/pop act on the array end; pushing the
neighbor candidates in loop order equals prepending their reversal) and
explicit fuel.  Popping a visited pixel is skipped; an unvisited pixel is
marked visited, and when its red channel exceeds 128 it is appended to the
point list and its unvisited on-neighbors are pushed. -/
def traceAux (img : ImageData) : ℕ → List Pt → List Pt → List Pt → List Pt × List Pt
  | 0, _, visited, points => (points, visited)
  | _ + 1, [], visited, points => (points, visited)
  | fuel + 1, p :: rest, visited, points =>
    if p ∈ visited then traceAux img fuel rest visited points
    else
      let visited2 := p :: visited
      if 128 < img.data ((p.2 * img.width + p.1) * 4) then
        let pushes := (nbrs img.width img.height p).filter
          (fun q => decide (q ∉ visited2 ∧
            128 < img.data ((q.2 * img.width + q.1) * 4)))
        traceAux img fuel (pushes.reverse ++ rest) visited2 (points ++ [p])
      else traceAux img fuel rest visited2 points

/-- traceLine (cadGeneration.ts lines 322-365): run the loop from the
start pixel with the shared visited set.  The fuel 9 * width * height + 1
dominates the loop measure, so the loop always runs to completion
(traceAux_measure_stable below). -/
def traceLine (img : ImageData) (x y : ℕ) (visited : List Pt) :
    List Pt × List Pt :=
  traceAux img (9 * (img.width * img.height) + 1) [(x, y)] visited []

/-- The raster-order pixel list walked by the nested y/x loops of
extractLinesFromEdges (cadGeneration.ts lines 298-299). -/
def rasterPts (w h : ℕ) : List Pt :=
  (List.range h).flatMap (fun y => (List.range w).map (fun x => (x, y)))

/-- Conversion of an integer pixel coordinate into the Point records the
tracer collects. -/
def ptQ (p : Pt) : Point :=
  ⟨(p.1 : ℚ), (p.2 : ℚ)⟩

/-- The raster scan body of extractLinesFromEdges (cadGeneration.ts lines
298-316): an unvisited on pixel starts a trace; the trace becomes a
hull_profile feature with confidence 0.8 when its point count reaches
minLineLength. -/
def extractGo (img : ImageData) (minLen : ℤ) :
    List Pt → List Pt → List YachtFeature
  | [], _ => []
  | p :: ps, visited =>
    if 128 < img.data ((p.2 * img.width + p.1) * 4) ∧ p ∉ visited then
      let r := traceLine img p.1 p.2 visited
      if minLen ≤ (r.1.length : ℤ) then
        ⟨.hull_profile, r.1.map ptQ, 8 / 10⟩ :: extractGo img minLen ps r.2
      else extractGo img minLen ps r.2
    else extractGo img minLen ps visited

/-- extractLinesFromEdges (cadGeneration.ts lines 289-319). -/
def extractLinesFromEdges (img : ImageData) (minLen : ℤ) : List YachtFeature :=
  extractGo img minLen (rasterPts img.width img.height) []

/-! ### Specification-side connectivity notions for the line tracer -/

/-- 8-adjacency of two distinct pixels. -/
def adjPt (p q : Pt) : Prop :=
  p ≠ q ∧ ((p.1 : ℤ) - q.1).natAbs ≤ 1 ∧ ((p.2 : ℤ) - q.2).natAbs ≤ 1

instance (p q : Pt) : Decidable (adjPt p q) := by
  unfold adjPt
  infer_instance

/-- One connectivity step: both endpoints are on pixels and they are
8-adjacent. -/
def stepPix (img : ImageData) (p q : Pt) : Prop :=
  onPix img p ∧ onPix img q ∧ adjPt p q

/-- Connectivity: the reflexive-transitive closure of stepPix. -/
def Conn (img : ImageData) (p q : Pt) : Prop :=
  Relation.ReflTransGen (stepPix img) p q

/-- The 8-connected component of the on pixel p. -/
def ConnComp (img : ImageData) (p : Pt) : Set Pt :=
  setOf (Conn img p)

/-- The on-pixel in-bounds neighbors of a pixel: the targets of stepPix
steps out of an on pixel. -/
def stepNbrs (img : ImageData) (p : Pt) : List Pt :=
  (nbrs img.width img.height p).filter
    (fun q => decide (128 < img.data ((q.2 * img.width + q.1) * 4)))

/-- Iterated neighbor closure, used to certify concrete components. -/
def reachIter (img : ImageData) : ℕ → List Pt → List Pt
  | 0, l => l
  | n + 1, l => reachIter img n ((l.flatMap (fun u => u :: stepNbrs img u)).dedup)

/-- The in-bounds pixel grid as a finset. -/
def gridF (w h : ℕ) : Finset Pt :=
  Finset.range w ×ˢ Finset.range h

/-- Loop measure of traceAux: unvisited in-bounds pixels weighted by 9
plus the stack length. -/
def traceMeasure (w h : ℕ) (stack visited : List Pt) : ℕ :=
  9 * ((gridF w h).filter (fun p => p ∉ visited)).card + stack.length

/-! ### Written-coordinate views of the serializers -/

/-- The numeric coordinate values generateDXF formats, in order, for one
feature (before toFixed(3) formatting): the branch structure of
dxfFeatureStr. -/
def dxfFeatureCoords (scale : ℚ) (f : YachtFeature) : List ℚ :=
  if f.type = .hull_profile ∨ f.type = .deck_edge then
    f.points.flatMap (fun p => [p.x / scale, p.y / scale])
  else if 2 ≤ f.points.length then
    let p1 := f.points.getD 0 ⟨0, 0⟩
    let p2 := f.points.getD (f.points.length - 1) ⟨0, 0⟩
    [p1.x / scale, p1.y / scale, p2.x / scale, p2.y / scale]
  else []

/-- All numeric coordinate values generateDXF writes. -/
def dxfWrittenCoords (features : List YachtFeature) (scale : ℚ) : List ℚ :=
  features.flatMap (dxfFeatureCoords scale)

/-- The numeric coordinate values generateSVG interpolates for one
feature: raw point coordinates, the scale argument being unused in the
source. -/
def svgFeatureCoords (f : YachtFeature) : List ℚ :=
  if f.type = .hull_profile ∨ f.type = .deck_edge then
    if 0 < f.points.length then f.points.flatMap (fun p => [p.x, p.y]) else []
  else if 2 ≤ f.points.length then
    let p1 := f.points.getD 0 ⟨0, 0⟩
    let p2 := f.points.getD (f.points.length - 1) ⟨0, 0⟩
    [p1.x, p1.y, p2.x, p2.y]
  else []

/-- All numeric coordinate values generateSVG writes. -/
def svgWrittenCoords (features : List YachtFeature) : List ℚ :=
  features.flatMap svgFeatureCoords

/-- All numeric point-coordinate values generateJSON stores (every point
of every feature, divided by scale and rounded by
parseFloat(toFixed(3))). -/
def jsonWrittenCoords (features : List YachtFeature) (scale : ℚ) : List ℚ :=
  features.flatMap (fun f =>
    f.points.flatMap (fun p =>
      [jsToFixedVal3 (p.x / scale), jsToFixedVal3 (p.y / scale)]))

/-- Claim-side selection of raw pixel coordinates: which point coordinates
the DXF line/polyline branches select, before any scaling.  Stated from
the specification wording (the point pixel coordinate) for comparison
with the written-coordinate views. -/
def selectedPointCoords (f : YachtFeature) : List ℚ :=
  if f.type = .hull_profile ∨ f.type = .deck_edge then
    f.points.flatMap (fun p => [p.x, p.y])
  else if 2 ≤ f.points.length then
    let p1 := f.points.getD 0 ⟨0, 0⟩
    let p2 := f.points.getD (f.points.length - 1) ⟨0, 0⟩
    [p1.x, p1.y, p2.x, p2.y]
  else []

/-- All raw point coordinates of a feature list, in serialization order
(the JSON serializer writes every point of every feature). -/
def allPointCoords (features : List YachtFeature) : List ℚ :=
  features.flatMap (fun f => f.points.flatMap (fun p => [p.x, p.y]))

/-- Loop invariant of the traceLine while loop, relative to the component
set S being traced and the visited list visited0 the call started from:
every stack entry is an on pixel of S; every newly visited pixel is an on
pixel of S; the starting visited list is preserved; the collected points
are exactly the newly visited pixels, without duplicates; and every
connectivity step out of a newly visited pixel lands in the visited list
or on the stack. -/
def TraceInv (img : ImageData) (S : Set Pt) (visited0 : List Pt)
    (stack visited points : List Pt) : Prop :=
  (∀ p ∈ stack, onPix img p ∧ p ∈ S) ∧
  (∀ p ∈ visited, p ∉ visited0 → onPix img p ∧ p ∈ S) ∧
  (∀ p ∈ visited0, p ∈ visited) ∧
  (∀ p : Pt, p ∈ points ↔ (p ∈ visited ∧ p ∉ visited0)) ∧
  points.Nodup ∧
  (∀ u ∈ visited, u ∉ visited0 → ∀ q : Pt, stepPix img u q → q ∈ visited ∨ q ∈ stack)

/-- A 15 by 1 buffer whose 15 pixels all have red channel 255: a single
straight 15-pixel on line. -/
def img15 : ImageData :=
  ⟨15, 1, fun i => if i % 4 = 0 then 255 else 0⟩

/-- The pixel list of the single component of img15. -/
def comp15 : List Pt :=
  (List.range 15).map (fun x => (x, 0))

/-! ## Helper lemmas -/

lemma sqrtGtQ_iff (s t : ℚ) (hs : 0 ≤ s) :
    sqrtGtQ s t = true ↔ ((t : ℝ) < Real.sqrt ((s : ℚ) : ℝ)) := by
  unfold sqrtGtQ
  rw [decide_eq_true_iff]
  constructor
  · rintro (ht | ht)
    · exact lt_of_lt_of_le (by exact_mod_cast ht) (Real.sqrt_nonneg _)
    · rcases lt_or_le t 0 with h0 | h0
      · exact lt_of_lt_of_le (by exact_mod_cast h0) (Real.sqrt_nonneg _)
      · have h0R : (0 : ℝ) ≤ (t : ℝ) := by exact_mod_cast h0
        have : ((t : ℝ)) ^ 2 < ((s : ℚ) : ℝ) := by exact_mod_cast ht
        exact (Real.lt_sqrt h0R).mpr this
  · intro hlt
    rcases lt_or_le t 0 with h0 | h0
    · exact Or.inl h0
    · right
      have h0R : (0 : ℝ) ≤ (t : ℝ) := by exact_mod_cast h0
      have := (Real.lt_sqrt h0R).mp hlt
      exact_mod_cast this

lemma sqrtGeQ_iff (s t : ℚ) (hs : 0 ≤ s) :
    sqrtGeQ s t = true ↔ ((t : ℝ) ≤ Real.sqrt ((s : ℚ) : ℝ)) := by
  unfold sqrtGeQ
  rw [decide_eq_true_iff]
  constructor
  · rintro (ht | ht)
    · exact le_trans (by exact_mod_cast ht) (Real.sqrt_nonneg _)
    · rcases le_or_lt t 0 with h0 | h0
      · exact le_trans (by exact_mod_cast h0) (Real.sqrt_nonneg _)
      · have h0R : (0 : ℝ) ≤ (t : ℝ) := by positivity
        have hsR : (0 : ℝ) ≤ ((s : ℚ) : ℝ) := by exact_mod_cast hs
        have hsq : ((t : ℝ)) ^ 2 ≤ ((s : ℚ) : ℝ) := by exact_mod_cast ht
        exact (Real.le_sqrt h0R hsR).mpr hsq
  · intro hle
    rcases le_or_lt t 0 with h0 | h0
    · exact Or.inl h0
    · right
      have h0R : (0 : ℝ) ≤ (t : ℝ) := by positivity
      have hsR : (0 : ℝ) ≤ ((s : ℚ) : ℝ) := by exact_mod_cast hs
      have := (Real.le_sqrt h0R hsR).mp hle
      exact_mod_cast this

lemma roundHalfEven_intCast (n : ℤ) : roundHalfEven (n : ℚ) = n := by
  unfold roundHalfEven
  simp

lemma clampByte_le255 (q : ℚ) : clampByte q ≤ 255 := by
  unfold clampByte
  omega

lemma clampByte_natCast (v : ℕ) (hv : v ≤ 255) : clampByte (v : ℚ) = v := by
  unfold clampByte
  have h1 : ((v : ℚ)) = ((v : ℤ) : ℚ) := by push_cast; rfl
  rw [h1, roundHalfEven_intCast]
  omega

lemma grayscaleData_base (d : ℕ → ℕ) (len b : ℕ) (hb : b < len) (hm : b % 4 = 0) :
    grayscaleData d len b = clampByte (grayVal d b) := by
  unfold grayscaleData
  rw [if_pos ⟨hb, by omega⟩]
  have : b - b % 4 = b := by omega
  rw [this]

lemma grayVal_const (d : ℕ → ℕ) (b : ℕ) (v : ℕ)
    (h0 : d b = v) (h1 : d (b + 1) = v) (h2 : d (b + 2) = v) :
    grayVal d b = (v : ℚ) := by
  unfold grayVal
  rw [h0, h1, h2]
  ring

/-- Claim C6: the grayscale step writes the same value
round(0.299 R + 0.587 G + 0.114 B) into all three color channels of every
pixel, leaves alpha untouched, and is idempotent: re-applying it to an
already reduced buffer (of well-formed length, a multiple of 4) changes no
byte. -/
theorem C6_grayscale_formula_and_idempotent :
    (∀ (d : ℕ → ℕ) (len p : ℕ), 4 * p + 3 < len →
      grayscaleData d len (4 * p) = clampByte (grayVal d (4 * p)) ∧
      grayscaleData d len (4 * p + 1) = clampByte (grayVal d (4 * p)) ∧
      grayscaleData d len (4 * p + 2) = clampByte (grayVal d (4 * p)) ∧
      grayscaleData d len (4 * p + 3) = d (4 * p + 3)) ∧
    (∀ (d : ℕ → ℕ) (len : ℕ), len % 4 = 0 →
      ∀ j, grayscaleData (grayscaleData d len) len j = grayscaleData d len j) := by
  constructor
  · intro d len p hp
    refine ⟨?_, ?_, ?_, ?_⟩
    · unfold grayscaleData
      rw [if_pos ⟨by omega, by omega⟩]
      have : 4 * p - (4 * p) % 4 = 4 * p := by omega
      rw [this]
    · unfold grayscaleData
      rw [if_pos ⟨by omega, by omega⟩]
      have : 4 * p + 1 - (4 * p + 1) % 4 = 4 * p := by omega
      rw [this]
    · unfold grayscaleData
      rw [if_pos ⟨by omega, by omega⟩]
      have : 4 * p + 2 - (4 * p + 2) % 4 = 4 * p := by omega
      rw [this]
    · unfold grayscaleData
      rw [if_neg (by omega)]
  · intro d len h4 j
    by_cases hj : j < len ∧ j % 4 ≠ 3
    · have hbase0 : (j - j % 4) % 4 = 0 := by omega
      have hbase1 : j - j % 4 < len := by omega
      have hbase2 : j - j % 4 + 1 < len := by omega
      have hbase3 : j - j % 4 + 2 < len := by omega
      set b := j - j % 4 with hb
      set v := clampByte (grayVal d b) with hv
      have e0 : grayscaleData d len b = v := grayscaleData_base d len b hbase1 hbase0
      have e1 : grayscaleData d len (b + 1) = v := by
        unfold grayscaleData
        rw [if_pos ⟨hbase2, by omega⟩]
        have : b + 1 - (b + 1) % 4 = b := by omega
        rw [this]
      have e2 : grayscaleData d len (b + 2) = v := by
        unfold grayscaleData
        rw [if_pos ⟨hbase3, by omega⟩]
        have : b + 2 - (b + 2) % 4 = b := by omega
        rw [this]
      have hgv : grayVal (grayscaleData d len) b = (v : ℚ) :=
        grayVal_const _ b v e0 e1 e2
      conv_lhs => rw [grayscaleData]
      rw [if_pos hj, ← hb, hgv, clampByte_natCast v (clampByte_le255 _)]
      conv_rhs => rw [grayscaleData]
      rw [if_pos hj, ← hb, hv]
    · conv_lhs => rw [grayscaleData]
      rw [if_neg hj]

/-- Witness for C6 at a concrete buffer (d i = i, length 8, pixel 0, byte 5). -/
theorem C6_witness :
    (4 * 0 + 3 < 8 ∧ (8 : ℕ) % 4 = 0) ∧
    (grayscaleData (fun i => i) 8 0 = clampByte (grayVal (fun i => i) 0) ∧
      grayscaleData (fun i => i) 8 3 = 3 ∧
      grayscaleData (grayscaleData (fun i => i) 8) 8 5
        = grayscaleData (fun i => i) 8 5) :=
  ⟨⟨by norm_num, by norm_num⟩,
    (C6_grayscale_formula_and_idempotent.1 (fun i => i) 8 0 (by norm_num)).1,
    (C6_grayscale_formula_and_idempotent.1 (fun i => i) 8 0 (by norm_num)).2.2.2,
    C6_grayscale_formula_and_idempotent.2 (fun i => i) 8 (by norm_num) 5⟩

lemma idx_decode (w x y c : ℕ) (hx : x < w) (hc : c < 4) :
    (((y * w + x) * 4 + c) / 4) % w = x ∧ (((y * w + x) * 4 + c) / 4) / w = y := by
  have hw : 0 < w := lt_of_le_of_lt (Nat.zero_le x) hx
  have h1 : ((y * w + x) * 4 + c) / 4 = y * w + x := by
    rw [Nat.add_comm ((y * w + x) * 4) c, Nat.add_mul_div_right c (y * w + x) (by norm_num)]
    omega
  constructor
  · rw [h1, Nat.add_comm (y * w) x, Nat.add_mul_mod_self_right, Nat.mod_eq_of_lt hx]
  · rw [h1, Nat.add_comm (y * w) x, Nat.add_mul_div_right x y hw, Nat.div_eq_of_lt hx]
    omega

lemma idx_mod4 (a c : ℕ) (hc : c < 4) : (a * 4 + c) % 4 = c := by
  omega

/-- Claim C7 (amended): for both edge operators, every interior pixel gets
alpha 255 and the binary edge intensity in all three color channels, while
border pixels (and every other byte of the output) are left entirely at 0,
alpha included. -/
theorem C7_edge_output_channels :
    (∀ (d : ℕ → ℕ) (w h : ℕ) (thr : ℚ) (x y : ℕ),
      interiorPix w h x y →
        (applySobelEdgeDetection d w h thr).data ((y * w + x) * 4 + 3) = 255 ∧
        (applyLaplacianEdgeDetection d w h thr).data ((y * w + x) * 4 + 3) = 255 ∧
        ∀ c, c < 3 →
          (applySobelEdgeDetection d w h thr).data ((y * w + x) * 4 + c)
            = sobelEdgeVal d w x y thr ∧
          (applyLaplacianEdgeDetection d w h thr).data ((y * w + x) * 4 + c)
            = lapEdgeVal d w x y thr) ∧
    (∀ (d : ℕ → ℕ) (w h : ℕ) (thr : ℚ) (x y : ℕ),
      x < w → y < h → ¬ interiorPix w h x y →
      ∀ c, c < 4 →
        (applySobelEdgeDetection d w h thr).data ((y * w + x) * 4 + c) = 0 ∧
        (applyLaplacianEdgeDetection d w h thr).data ((y * w + x) * 4 + c) = 0) := by
  constructor
  · intro d w h thr x y hint
    have hx : x < w := by
      rcases hint with ⟨_, h2, _, _⟩
      omega
    have d3 := idx_decode w x y 3 hx (by norm_num)
    refine ⟨?_, ?_, ?_⟩
    · show (if interiorPix w h ((((y * w + x) * 4 + 3) / 4) % w) ((((y * w + x) * 4 + 3) / 4) / w)
        then (if ((y * w + x) * 4 + 3) % 4 = 3 then 255
          else sobelEdgeVal d w ((((y * w + x) * 4 + 3) / 4) % w) ((((y * w + x) * 4 + 3) / 4) / w) thr)
        else 0) = 255
      rw [d3.1, d3.2, if_pos hint, if_pos (idx_mod4 (y * w + x) 3 (by norm_num))]
    · show (if interiorPix w h ((((y * w + x) * 4 + 3) / 4) % w) ((((y * w + x) * 4 + 3) / 4) / w)
        then (if ((y * w + x) * 4 + 3) % 4 = 3 then 255
          else lapEdgeVal d w ((((y * w + x) * 4 + 3) / 4) % w) ((((y * w + x) * 4 + 3) / 4) / w) thr)
        else 0) = 255
      rw [d3.1, d3.2, if_pos hint, if_pos (idx_mod4 (y * w + x) 3 (by norm_num))]
    · intro c hc
      have dc := idx_decode w x y c hx (by omega)
      constructor
      · show (if interiorPix w h ((((y * w + x) * 4 + c) / 4) % w) ((((y * w + x) * 4 + c) / 4) / w)
          then (if ((y * w + x) * 4 + c) % 4 = 3 then 255
            else sobelEdgeVal d w ((((y * w + x) * 4 + c) / 4) % w) ((((y * w + x) * 4 + c) / 4) / w) thr)
          else 0) = sobelEdgeVal d w x y thr
        rw [dc.1, dc.2, if_pos hint, if_neg (by rw [idx_mod4 (y * w + x) c (by omega)]; omega)]
      · show (if interiorPix w h ((((y * w + x) * 4 + c) / 4) % w) ((((y * w + x) * 4 + c) / 4) / w)
          then (if ((y * w + x) * 4 + c) % 4 = 3 then 255
            else lapEdgeVal d w ((((y * w + x) * 4 + c) / 4) % w) ((((y * w + x) * 4 + c) / 4) / w) thr)
          else 0) = lapEdgeVal d w x y thr
        rw [dc.1, dc.2, if_pos hint, if_neg (by rw [idx_mod4 (y * w + x) c (by omega)]; omega)]
  · intro d w h thr x y hx hy hnot c hc
    have dc := idx_decode w x y c hx hc
    constructor
    · show (if interiorPix w h ((((y * w + x) * 4 + c) / 4) % w) ((((y * w + x) * 4 + c) / 4) / w)
        then (if ((y * w + x) * 4 + c) % 4 = 3 then 255
          else sobelEdgeVal d w ((((y * w + x) * 4 + c) / 4) % w) ((((y * w + x) * 4 + c) / 4) / w) thr)
        else 0) = 0
      rw [dc.1, dc.2, if_neg hnot]
    · show (if interiorPix w h ((((y * w + x) * 4 + c) / 4) % w) ((((y * w + x) * 4 + c) / 4) / w)
        then (if ((y * w + x) * 4 + c) % 4 = 3 then 255
          else lapEdgeVal d w ((((y * w + x) * 4 + c) / 4) % w) ((((y * w + x) * 4 + c) / 4) / w) thr)
        else 0) = 0
      rw [dc.1, dc.2, if_neg hnot]

/-- Counterexample for C7 as stated: on a 3 by 3 buffer, the alpha byte of
the border pixel (0,0) of both operator outputs is 0, not 255. -/
theorem C7_counterexample :
    (applySobelEdgeDetection (fun _ => 0) 3 3 100).data 3 = 0 ∧
    (applyLaplacianEdgeDetection (fun _ => 0) 3 3 100).data 3 = 0 ∧
    (0 : ℕ) ≠ 255 := by
  refine ⟨?_, ?_, by norm_num⟩ <;> rfl

/-- Witness for C7 at the interior pixel (1,1) of a 3 by 3 buffer and the
border pixel (2,0). -/
theorem C7_witness :
    (interiorPix 3 3 1 1 ∧ ¬ interiorPix 3 3 2 0) ∧
    ((applySobelEdgeDetection (fun _ => 0) 3 3 100).data ((1 * 3 + 1) * 4 + 3) = 255 ∧
      (applySobelEdgeDetection (fun _ => 0) 3 3 100).data ((1 * 3 + 1) * 4 + 0)
        = sobelEdgeVal (fun _ => 0) 3 1 1 100 ∧
      (applyLaplacianEdgeDetection (fun _ => 0) 3 3 100).data ((0 * 3 + 2) * 4 + 3) = 0) :=
  ⟨⟨by decide, by decide⟩,
    (C7_edge_output_channels.1 (fun _ => 0) 3 3 100 1 1 (by decide)).1,
    ((C7_edge_output_channels.1 (fun _ => 0) 3 3 100 1 1 (by decide)).2.2 0 (by norm_num)).1,
    (C7_edge_output_channels.2 (fun _ => 0) 3 3 100 2 0 (by decide) (by decide) (by decide) 3
      (by norm_num)).2⟩

/-- Claim C9 (amended): an out-of-range outputFormat makes generateCADOutput
return the empty string, and an out-of-range edgeMethod makes
applyEdgeDetection return the input buffer unchanged: both are silent
default-branch fallbacks, not boundary rejections. -/
theorem C9_unknown_enum_fallbacks :
    (∀ features format scale referencePoints (cw ch : ℕ) oi now,
      format ≠ "dxf" → format ≠ "svg" → format ≠ "json" →
      generateCADOutput features format scale referencePoints cw ch oi now = "") ∧
    (∀ img method thr, method ≠ "canny" → method ≠ "sobel" → method ≠ "laplacian" →
      applyEdgeDetection img method thr = img) := by
  constructor
  · intro features format scale referencePoints cw ch oi now h1 h2 h3
    simp only [generateCADOutput]
    rw [if_neg h1, if_neg h2, if_neg h3]
  · intro img method thr h1 h2 h3
    simp only [applyEdgeDetection]
    rw [if_neg (by push_neg; exact ⟨h1, h2⟩), if_neg h3]

/-- Counterexample for C9 as stated: at the unknown enum values "pdf" and
"prewitt" the code silently returns the empty string and the unchanged
input buffer; nothing is rejected. -/
theorem C9_counterexample :
    generateCADOutput [] "pdf" 1 [] 100 100 none "T" = "" ∧
    applyEdgeDetection ⟨3, 3, fun _ => 0⟩ "prewitt" 100 = ⟨3, 3, fun _ => 0⟩ := by
  exact ⟨rfl, rfl⟩

/-- Witness for C9 at the unknown enum values "pdf" and "prewitt". -/
theorem C9_witness :
    generateCADOutput [] "pdf" 1 [] 100 100 none "T" = "" ∧
    applyEdgeDetection ⟨3, 3, fun _ => 0⟩ "prewitt" 100 = ⟨3, 3, fun _ => 0⟩ :=
  ⟨C9_unknown_enum_fallbacks.1 [] "pdf" 1 [] 100 100 none "T" (by decide) (by decide)
      (by decide),
    C9_unknown_enum_fallbacks.2 ⟨3, 3, fun _ => 0⟩ "prewitt" 100 (by decide) (by decide)
      (by decide)⟩

/-- Claim C10: generateDXF and generateSVG are deterministic functions of
their arguments, while generateJSON output additionally depends on the
wall-clock timestamp it embeds: with identical serialization arguments,
two different clock readings produce two different output strings. -/
theorem C10_determinism_and_json_timestamp :
    (∀ f1 f2 (s1 s2 : ℚ), f1 = f2 → s1 = s2 →
      generateDXF f1 s1 = generateDXF f2 s2) ∧
    (∀ f1 f2 (s1 s2 cw1 cw2 ch1 ch2 : ℚ), f1 = f2 → s1 = s2 → cw1 = cw2 →
      ch1 = ch2 → generateSVG f1 s1 cw1 ch1 = generateSVG f2 s2 cw2 ch2) ∧
    (∃ now1 now2 : String, now1 ≠ now2 ∧
      generateJSON [] 1 [] 100 100 none now1 ≠ generateJSON [] 1 [] 100 100 none now2) := by
  refine ⟨?_, ?_, "A", "B", by decide, by decide⟩
  · rintro f1 f2 s1 s2 rfl rfl
    rfl
  · rintro f1 f2 s1 s2 cw1 cw2 ch1 ch2 rfl rfl rfl rfl
    rfl

/-- Witness for C10 at concrete equal arguments. -/
theorem C10_witness :
    generateDXF [⟨.mast, [⟨1, 3⟩, ⟨5, 7⟩], 8 / 10⟩] 2
      = generateDXF [⟨.mast, [⟨1, 3⟩, ⟨5, 7⟩], 8 / 10⟩] 2 ∧
    generateSVG [] 1 100 100 = generateSVG [] 1 100 100 :=
  ⟨C10_determinism_and_json_timestamp.1 _ _ _ _ rfl rfl,
    C10_determinism_and_json_timestamp.2.1 [] [] 1 1 100 100 100 100 rfl rfl rfl rfl⟩

lemma flatMap_map_eq {α β γ : Type} (l : List α) (g : α → List β) (m : β → γ) :
    (l.flatMap g).map m = l.flatMap (fun a => (g a).map m) := by
  induction l with
  | nil => rfl
  | cons a t ih => simp [List.flatMap_cons, ih]

lemma dxfFeatureCoords_eq (scale : ℚ) (f : YachtFeature) :
    dxfFeatureCoords scale f = (selectedPointCoords f).map (fun c => c / scale) := by
  unfold dxfFeatureCoords selectedPointCoords
  by_cases h1 : f.type = .hull_profile ∨ f.type = .deck_edge
  · rw [if_pos h1, if_pos h1, flatMap_map_eq]
    simp
  · rw [if_neg h1, if_neg h1]
    by_cases h2 : 2 ≤ f.points.length
    · rw [if_pos h2, if_pos h2]
      simp
    · rw [if_neg h2, if_neg h2]
      rfl

lemma svgFeatureCoords_eq (f : YachtFeature) :
    svgFeatureCoords f = selectedPointCoords f := by
  unfold svgFeatureCoords selectedPointCoords
  by_cases h1 : f.type = .hull_profile ∨ f.type = .deck_edge
  · rw [if_pos h1, if_pos h1]
    by_cases h2 : 0 < f.points.length
    · rw [if_pos h2]
    · rw [if_neg h2]
      have : f.points = [] := by
        cases hp : f.points with
        | nil => rfl
        | cons a t => rw [hp] at h2; simp at h2
      rw [this]
      rfl
  · rw [if_neg h1, if_neg h1]

/-- Claim C5 (amended): the DXF and JSON serializers write every selected
point coordinate divided by scale (the JSON values additionally rounded to
three decimals by parseFloat(toFixed(3))); at the uncalibrated default
scale 1 this division is the identity, so raw pixel coordinates pass
through.  The SVG serializer, however, writes raw pixel coordinates at
every scale: its output string does not depend on the scale argument at
all. -/
theorem C5_coordinate_scaling :
    (∀ features scale, dxfWrittenCoords features scale
        = (features.flatMap selectedPointCoords).map (fun c => c / scale)) ∧
    (∀ features, dxfWrittenCoords features 1 = features.flatMap selectedPointCoords) ∧
    (∀ features scale, jsonWrittenCoords features scale
        = (allPointCoords features).map (fun c => jsToFixedVal3 (c / scale))) ∧
    (∀ features, svgWrittenCoords features = features.flatMap selectedPointCoords) ∧
    (∀ features scale cw ch, generateSVG features scale cw ch
        = generateSVG features 1 cw ch) := by
  have hdxf : ∀ features scale, dxfWrittenCoords features scale
      = (features.flatMap selectedPointCoords).map (fun c => c / scale) := by
    intro features scale
    unfold dxfWrittenCoords
    rw [flatMap_map_eq]
    have he : dxfFeatureCoords scale
        = fun f => (selectedPointCoords f).map (fun c => c / scale) :=
      funext (dxfFeatureCoords_eq scale)
    rw [he]
  refine ⟨hdxf, ?_, ?_, ?_, ?_⟩
  · intro features
    rw [hdxf features 1]
    have : (fun c : ℚ => c / 1) = id := by
      funext c
      simp
    rw [this, List.map_id]
  · intro features scale
    unfold jsonWrittenCoords allPointCoords
    rw [flatMap_map_eq]
    have he : (fun f : YachtFeature => f.points.flatMap (fun p =>
        [jsToFixedVal3 (p.x / scale), jsToFixedVal3 (p.y / scale)]))
        = fun f => (f.points.flatMap (fun p => [p.x, p.y])).map
            (fun c => jsToFixedVal3 (c / scale)) := by
      funext f
      rw [flatMap_map_eq]
      simp
    rw [he]
  · intro features
    unfold svgWrittenCoords
    have he : svgFeatureCoords = selectedPointCoords := funext svgFeatureCoords_eq
    rw [he]
  · intro features scale cw ch
    rfl

/-- Counterexample for C5 as stated: with scale 2 (not the uncalibrated
default), the SVG serializer writes the raw coordinates 1, 3, 5, 7 of a
two-point mast feature, not the scaled coordinates 1/2, 3/2, 5/2, 7/2 the
claim requires; indeed the full SVG output at scale 2 is identical to the
output at scale 1. -/
theorem C5_counterexample :
    svgWrittenCoords [⟨.mast, [⟨1, 3⟩, ⟨5, 7⟩], 8 / 10⟩] = [1, 3, 5, 7] ∧
    ([1, 3, 5, 7] : List ℚ) ≠ [1 / 2, 3 / 2, 5 / 2, 7 / 2] ∧
    generateSVG [⟨.mast, [⟨1, 3⟩, ⟨5, 7⟩], 8 / 10⟩] 2 100 100
      = generateSVG [⟨.mast, [⟨1, 3⟩, ⟨5, 7⟩], 8 / 10⟩] 1 100 100 :=
  ⟨by decide, by norm_num, rfl⟩

/-- Claim C8 (amended): for features whose kind selects the two-point line
representation (neither hull_profile nor deck_edge), a feature with at
least two points emits the endpoint-to-endpoint LINE (DXF) and line (SVG)
records, but a zero- or one-point feature is silently dropped from both
outputs rather than emitting a degenerate line. -/
theorem C8_two_point_line_fallback :
    ∀ (f : YachtFeature) (index : ℕ) (scale : ℚ),
      f.type ≠ .hull_profile → f.type ≠ .deck_edge →
      (2 ≤ f.points.length →
        dxfFeatureStr index scale f
          = "0\nLINE\n8\n" ++ ftypeUpper f.type ++ "\n62\n" ++ Nat.repr (index + 1)
            ++ "\n10\n" ++ qToFixed3 ((f.points.getD 0 ⟨0, 0⟩).x / scale)
            ++ "\n20\n" ++ qToFixed3 ((f.points.getD 0 ⟨0, 0⟩).y / scale)
            ++ "\n11\n"
            ++ qToFixed3 ((f.points.getD (f.points.length - 1) ⟨0, 0⟩).x / scale)
            ++ "\n21\n"
            ++ qToFixed3 ((f.points.getD (f.points.length - 1) ⟨0, 0⟩).y / scale)
            ++ "\n" ∧
        svgFeatureStr f
          = "  <line x1=\"" ++ qToStr (f.points.getD 0 ⟨0, 0⟩).x ++ "\" y1=\""
            ++ qToStr (f.points.getD 0 ⟨0, 0⟩).y ++ "\" x2=\""
            ++ qToStr (f.points.getD (f.points.length - 1) ⟨0, 0⟩).x ++ "\" y2=\""
            ++ qToStr (f.points.getD (f.points.length - 1) ⟨0, 0⟩).y ++ "\" class=\""
            ++ ftypeName f.type ++ "\" />\n") ∧
      (f.points.length < 2 →
        dxfFeatureStr index scale f = "" ∧ svgFeatureStr f = "") := by
  intro f index scale h1 h2
  have hk : ¬ (f.type = .hull_profile ∨ f.type = .deck_edge) := by
    rintro (h | h)
    · exact h1 h
    · exact h2 h
  constructor
  · intro hlen
    constructor
    · unfold dxfFeatureStr
      rw [if_neg hk, if_pos hlen]
    · unfold svgFeatureStr
      rw [if_neg hk, if_pos hlen]
  · intro hlen
    constructor
    · unfold dxfFeatureStr
      rw [if_neg hk, if_neg (by omega)]
    · unfold svgFeatureStr
      rw [if_neg hk, if_neg (by omega)]

/-- Counterexample for C8 as stated: a one-point mast feature produces no
record at all; the DXF and SVG outputs coincide with those of the empty
feature list instead of containing a minimal degenerate line. -/
theorem C8_counterexample :
    generateDXF [⟨.mast, [⟨5, 5⟩], 8 / 10⟩] 1 = generateDXF [] 1 ∧
    generateSVG [⟨.mast, [⟨5, 5⟩], 8 / 10⟩] 1 100 100 = generateSVG [] 1 100 100 ∧
    dxfFeatureStr 0 1 ⟨.mast, [⟨5, 5⟩], 8 / 10⟩ = "" ∧
    svgFeatureStr ⟨.mast, [⟨5, 5⟩], 8 / 10⟩ = "" := by
  exact ⟨rfl, rfl, rfl, rfl⟩

/-- Witness for C8 at a two-point mast feature and a one-point mast
feature. -/
theorem C8_witness :
    (dxfFeatureStr 0 2 ⟨.mast, [⟨1, 3⟩, ⟨5, 7⟩], 8 / 10⟩
      = "0\nLINE\n8\n" ++ ftypeUpper (YachtFeature.mk .mast [⟨1, 3⟩, ⟨5, 7⟩] (8 / 10)).type
        ++ "\n62\n" ++ Nat.repr (0 + 1)
        ++ "\n10\n" ++ qToFixed3 (((YachtFeature.mk .mast [⟨1, 3⟩, ⟨5, 7⟩] (8 / 10)).points.getD 0 ⟨0, 0⟩).x / 2)
        ++ "\n20\n" ++ qToFixed3 (((YachtFeature.mk .mast [⟨1, 3⟩, ⟨5, 7⟩] (8 / 10)).points.getD 0 ⟨0, 0⟩).y / 2)
        ++ "\n11\n"
        ++ qToFixed3 (((YachtFeature.mk .mast [⟨1, 3⟩, ⟨5, 7⟩] (8 / 10)).points.getD ((YachtFeature.mk .mast [⟨1, 3⟩, ⟨5, 7⟩] (8 / 10)).points.length - 1) ⟨0, 0⟩).x / 2)
        ++ "\n21\n"
        ++ qToFixed3 (((YachtFeature.mk .mast [⟨1, 3⟩, ⟨5, 7⟩] (8 / 10)).points.getD ((YachtFeature.mk .mast [⟨1, 3⟩, ⟨5, 7⟩] (8 / 10)).points.length - 1) ⟨0, 0⟩).y / 2)
        ++ "\n") ∧
    dxfFeatureStr 0 2 ⟨.mast, [⟨9, 9⟩], 8 / 10⟩ = "" :=
  ⟨((C8_two_point_line_fallback ⟨.mast, [⟨1, 3⟩, ⟨5, 7⟩], 8 / 10⟩ 0 2 (by decide)
      (by decide)).1 (by decide)).1,
    ((C8_two_point_line_fallback ⟨.mast, [⟨9, 9⟩], 8 / 10⟩ 0 2 (by decide)
      (by decide)).2 (by decide)).1⟩

lemma calculateScale_two (p1 p2 : ReferencePoint) (kd : ℚ) (old : ℝ) (mode : Bool)
    (hkd : kd ≠ 0) :
    calculateScale ⟨[p1, p2], kd, old, mode⟩ =
      ⟨[p1, p2], kd,
        Real.sqrt (((p2.x - p1.x) ^ 2 + (p2.y - p1.y) ^ 2 : ℚ) : ℝ)
          / ((kd * 1000 : ℚ) : ℝ),
        false⟩ := by
  simp only [calculateScale]
  rw [if_neg hkd]

lemma sqrt_ratCast_eval (q : ℚ) (n : ℝ) (h : ((q : ℚ) : ℝ) = n ^ 2) (hn : 0 ≤ n) :
    Real.sqrt ((q : ℚ) : ℝ) = n := by
  rw [h, Real.sqrt_sq hn]

/-- Claim C3 (amended): with two calibration points and a nonzero known
distance, calculateScale stores pixel distance divided by the known
distance converted to millimeters, fully replacing the previous factor
(the stored value does not depend on it); at pixel distance 100 and
knownRealDistance 0.1 the stored factor is 1 pixel per millimeter
(equivalently 1000 pixels per meter), not 1000. -/
theorem C3_scale_calibration :
    (∀ (p1 p2 : ReferencePoint) (kd : ℚ) (old : ℝ) (mode : Bool), kd ≠ 0 →
      (calculateScale ⟨[p1, p2], kd, old, mode⟩).pixelsPerMM
        = Real.sqrt (((p2.x - p1.x) ^ 2 + (p2.y - p1.y) ^ 2 : ℚ) : ℝ)
            / ((kd * 1000 : ℚ) : ℝ)) ∧
    (∀ (old : ℝ) (mode : Bool),
      (calculateScale ⟨[⟨0, 0, 0⟩, ⟨60, 80, 1⟩], 1 / 10, old, mode⟩).pixelsPerMM = 1) := by
  have h1 : ∀ (p1 p2 : ReferencePoint) (kd : ℚ) (old : ℝ) (mode : Bool), kd ≠ 0 →
      (calculateScale ⟨[p1, p2], kd, old, mode⟩).pixelsPerMM
        = Real.sqrt (((p2.x - p1.x) ^ 2 + (p2.y - p1.y) ^ 2 : ℚ) : ℝ)
            / ((kd * 1000 : ℚ) : ℝ) := by
    intro p1 p2 kd old mode hkd
    rw [calculateScale_two p1 p2 kd old mode hkd]
  refine ⟨h1, ?_⟩
  intro old mode
  rw [h1 ⟨0, 0, 0⟩ ⟨60, 80, 1⟩ (1 / 10) old mode (by norm_num)]
  have e1 : Real.sqrt ((((60 : ℚ) - 0) ^ 2 + ((80 : ℚ) - 0) ^ 2 : ℚ) : ℝ) = 100 :=
    sqrt_ratCast_eval _ 100 (by push_cast; norm_num) (by norm_num)
  rw [e1]
  have e2 : (((1 : ℚ) / 10 * 1000 : ℚ) : ℝ) = 100 := by push_cast; norm_num
  rw [e2]
  norm_num

/-- Counterexample for C3 as stated: at pixel distance 100 and known
distance 0.1 the stored value is 1 (pixels per millimeter), not 1000. -/
theorem C3_counterexample :
    (calculateScale ⟨[⟨0, 0, 0⟩, ⟨60, 80, 1⟩], 1 / 10, 5, true⟩).pixelsPerMM = 1 ∧
    (1 : ℝ) ≠ 1000 := by
  constructor
  · rw [calculateScale_two ⟨0, 0, 0⟩ ⟨60, 80, 1⟩ (1 / 10) 5 true (by norm_num)]
    show Real.sqrt ((((60 : ℚ) - 0) ^ 2 + ((80 : ℚ) - 0) ^ 2 : ℚ) : ℝ)
      / (((1 : ℚ) / 10 * 1000 : ℚ) : ℝ) = 1
    rw [sqrt_ratCast_eval _ 100 (by push_cast; norm_num) (by norm_num)]
    have e2 : (((1 : ℚ) / 10 * 1000 : ℚ) : ℝ) = 100 := by push_cast; norm_num
    rw [e2]
    norm_num
  · norm_num

/-- Witness for C3 at two different previously stored factors: the result
is the same, so recalibration replaces rather than accumulates. -/
theorem C3_witness :
    (calculateScale ⟨[⟨0, 0, 0⟩, ⟨60, 80, 1⟩], 1 / 10, 5, true⟩).pixelsPerMM = 1 ∧
    (calculateScale ⟨[⟨0, 0, 0⟩, ⟨60, 80, 1⟩], 1 / 10, 77, false⟩).pixelsPerMM = 1 :=
  ⟨C3_scale_calibration.2 5 true, C3_scale_calibration.2 77 false⟩

/-- Claim C4 (amended): calculateScale leaves the state unchanged exactly
when the point count differs from 2 or the known distance is zero (the JS
falsiness guard); a negative known distance passes the guard, so it does
result in a stored negative factor (see C4_counterexample). -/
theorem C4_guard_no_update :
    ∀ s : ScaleState, s.scalePoints.length ≠ 2 ∨ s.knownDistance = 0 →
      calculateScale s = s := by
  intro s h
  obtain ⟨pts, kd, old, mode⟩ := s
  rcases pts with _ | ⟨a, _ | ⟨b, _ | ⟨c, t⟩⟩⟩
  · rfl
  · rfl
  · rcases h with h | h
    · simp at h
    · simp only [calculateScale]
      rw [if_pos h]
  · rfl

/-- Counterexample for C4 as stated: a negative known distance (-1) with
two points at pixel distance 100 passes the guard and stores the negative
factor -1/10, replacing the previous factor 1. -/
theorem C4_counterexample :
    (calculateScale ⟨[⟨0, 0, 0⟩, ⟨100, 0, 1⟩], -1, 1, true⟩).pixelsPerMM = -(1 / 10) ∧
    (-(1 / 10) : ℝ) < 0 ∧ ((-(1 / 10) : ℝ) ≠ 1) := by
  refine ⟨?_, by norm_num, by norm_num⟩
  rw [calculateScale_two ⟨0, 0, 0⟩ ⟨100, 0, 1⟩ (-1) 1 true (by norm_num)]
  show Real.sqrt ((((100 : ℚ) - 0) ^ 2 + ((0 : ℚ) - 0) ^ 2 : ℚ) : ℝ)
    / (((-1 : ℚ) * 1000 : ℚ) : ℝ) = -(1 / 10)
  rw [sqrt_ratCast_eval _ 100 (by push_cast; norm_num) (by norm_num)]
  have e2 : (((-1 : ℚ) * 1000 : ℚ) : ℝ) = -1000 := by push_cast; norm_num
  rw [e2]
  norm_num

/-- Witness for C4 at an empty point list and at a zero distance. -/
theorem C4_witness :
    calculateScale ⟨[], 5, 2, false⟩ = ⟨[], 5, 2, false⟩ ∧
    calculateScale ⟨[⟨0, 0, 0⟩, ⟨1, 1, 1⟩], 0, 2, false⟩
      = ⟨[⟨0, 0, 0⟩, ⟨1, 1, 1⟩], 0, 2, false⟩ :=
  ⟨C4_guard_no_update ⟨[], 5, 2, false⟩ (Or.inl (by decide)),
    C4_guard_no_update ⟨[⟨0, 0, 0⟩, ⟨1, 1, 1⟩], 0, 2, false⟩ (Or.inr rfl)⟩

lemma categorizeGo_mem (w h : ℚ) (mode : String) (f : YachtFeature)
    (hk : classifierKeep f = true) :
    ∀ (l : List YachtFeature) (i : ℕ), f ∈ l →
      ∃ j, categorizeOne mode w h j f ∈ categorizeGo w h mode i l := by
  intro l
  induction l with
  | nil =>
    intro i hmem
    simp at hmem
  | cons a t ih =>
    intro i hmem
    rcases List.mem_cons.mp hmem with rfl | hmem
    · refine ⟨i, ?_⟩
      unfold categorizeGo
      rw [if_pos hk]
      exact List.mem_cons_self _ _
    · by_cases ha : classifierKeep a = true
      · obtain ⟨j, hj⟩ := ih (i + 1) hmem
        refine ⟨j, ?_⟩
        unfold categorizeGo
        rw [if_pos ha]
        exact List.mem_cons_of_mem _ hj
      · obtain ⟨j, hj⟩ := ih i hmem
        refine ⟨j, ?_⟩
        unfold categorizeGo
        rw [if_neg ha]
        exact hj

lemma categorizeOne_yacht_waterline (w h : ℚ) (j : ℕ) (f : YachtFeature)
    (hlen : 2 ≤ f.points.length)
    (hH : |(f.points.getD (f.points.length - 1) ⟨0, 0⟩).y - (f.points.getD 0 ⟨0, 0⟩).y|
        < |(f.points.getD (f.points.length - 1) ⟨0, 0⟩).x - (f.points.getD 0 ⟨0, 0⟩).x|)
    (hL : sqrtGtQ (((f.points.getD (f.points.length - 1) ⟨0, 0⟩).x
            - (f.points.getD 0 ⟨0, 0⟩).x) ^ 2
          + ((f.points.getD (f.points.length - 1) ⟨0, 0⟩).y
            - (f.points.getD 0 ⟨0, 0⟩).y) ^ 2) (w * (3 / 10)) = true)
    (hY : h * (7 / 10) < (f.points.map Point.y).sum / f.points.length) :
    categorizeOne "yacht" w h j f = { f with type := .waterline, confidence := 9 / 10 } := by
  unfold categorizeOne
  rw [if_neg (show ¬ f.points.length < 2 by omega)]
  rw [if_pos rfl]
  rw [if_pos ⟨hH, hL⟩]
  rw [if_pos hY]

/-- Claim C2: in yacht mode, a raw trace with at least 3 points that
passes the 20-pixel chord filter, whose endpoints satisfy the horizontal
test, whose chord length exceeds 0.3 times the canvas width, and whose
mean y coordinate lies below 0.7 times the canvas height (bottom 30
percent), is categorized as waterline with confidence exactly 0.9, its
point list unchanged. -/
theorem C2_yacht_waterline_rule :
    ∀ (raw : List YachtFeature) (w h : ℚ) (f : YachtFeature),
      f ∈ raw →
      3 ≤ f.points.length →
      (20 : ℝ) ≤ Real.sqrt ((chordSq f.points : ℚ) : ℝ) →
      |(f.points.getD (f.points.length - 1) ⟨0, 0⟩).y - (f.points.getD 0 ⟨0, 0⟩).y|
        < |(f.points.getD (f.points.length - 1) ⟨0, 0⟩).x - (f.points.getD 0 ⟨0, 0⟩).x| →
      ((w * (3 / 10) : ℚ) : ℝ) < Real.sqrt ((chordSq f.points : ℚ) : ℝ) →
      h * (7 / 10) < (f.points.map Point.y).sum / f.points.length →
      ∃ g ∈ categorizeDetectedFeatures raw w h "yacht",
        g.points = f.points ∧ g.type = .waterline ∧ g.confidence = 9 / 10 := by
  intro raw w h f hmem hlen hchord hH hlong havg
  have hcs : (0 : ℚ) ≤ chordSq f.points := by
    unfold chordSq
    positivity
  have hkeep : classifierKeep f = true := by
    unfold classifierKeep
    rw [if_neg (show ¬ f.points.length < 3 by omega)]
    exact (sqrtGeQ_iff _ _ hcs).mpr (by exact_mod_cast hchord)
  have hgt : sqrtGtQ (chordSq f.points) (w * (3 / 10)) = true :=
    (sqrtGtQ_iff _ _ hcs).mpr hlong
  obtain ⟨j, hj⟩ := categorizeGo_mem w h "yacht" f hkeep raw 0 hmem
  have hcat := categorizeOne_yacht_waterline w h j f (by omega) hH hgt havg
  refine ⟨categorizeOne "yacht" w h j f, hj, ?_, ?_, ?_⟩
  · rw [hcat]
  · rw [hcat]
  · rw [hcat]

/-- Witness for C2: a perfectly horizontal 3-point trace spanning 40
percent of a 500-wide canvas, centered at 0.9 of the canvas height, is
labeled waterline with confidence 0.9. -/
theorem C2_witness :
    ∃ g ∈ categorizeDetectedFeatures
        [⟨.hull_profile, [⟨100, 450⟩, ⟨200, 450⟩, ⟨300, 450⟩], 8 / 10⟩] 500 500 "yacht",
      g.points = (⟨.hull_profile, [⟨100, 450⟩, ⟨200, 450⟩, ⟨300, 450⟩],
        8 / 10⟩ : YachtFeature).points ∧
      g.type = .waterline ∧ g.confidence = 9 / 10 := by
  have hc : chordSq (YachtFeature.mk .hull_profile
      [⟨100, 450⟩, ⟨200, 450⟩, ⟨300, 450⟩] (8 / 10)).points = 40000 := by
    unfold chordSq
    norm_num
  refine C2_yacht_waterline_rule _ 500 500 _ (List.mem_singleton.mpr rfl)
    (by norm_num) ?_ ?_ ?_ ?_
  · rw [hc]
    rw [sqrt_ratCast_eval 40000 200 (by push_cast; norm_num) (by norm_num)]
    norm_num
  · norm_num
  · rw [hc]
    rw [sqrt_ratCast_eval 40000 200 (by push_cast; norm_num) (by norm_num)]
    push_cast
    norm_num
  · norm_num [List.sum_cons]

lemma nbrs_mem_iff (w h : ℕ) (p q : Pt) :
    q ∈ nbrs w h p ↔ (adjPt p q ∧ q.1 < w ∧ q.2 < h) := by
  rcases p with ⟨px, py⟩
  rcases q with ⟨qx, qy⟩
  unfold nbrs adjPt
  rw [List.mem_filterMap]
  simp only [Prod.mk.injEq, ne_eq, not_and]
  constructor
  · rintro ⟨d, hd, hf⟩
    fin_cases hd <;>
      (simp only at hf
       split_ifs at hf with hb <;>
         first
           | (simp only [Option.some.injEq, Prod.mk.injEq] at hf
              refine ⟨⟨?_, ?_, ?_⟩, ?_, ?_⟩ <;> omega)
           | simp at hf)
  · rintro ⟨⟨hne, hax, hay⟩, hqx, hqy⟩
    have hne2 : ¬ (px = qx ∧ py = qy) := by
      intro hcon
      exact hne hcon.1 hcon.2
    have hdx : (qx : ℤ) - px = -1 ∨ (qx : ℤ) - px = 0 ∨ (qx : ℤ) - px = 1 := by omega
    have hdy : (qy : ℤ) - py = -1 ∨ (qy : ℤ) - py = 0 ∨ (qy : ℤ) - py = 1 := by omega
    rcases hdx with hx | hx | hx <;> rcases hdy with hy | hy | hy
    · exact ⟨(-1, -1), by simp [nbrOffsets], by
        rw [if_pos (by constructor <;> omega)]
        simp only [Option.some.injEq, Prod.mk.injEq]
        constructor <;> omega⟩
    · exact ⟨(-1, 0), by simp [nbrOffsets], by
        rw [if_pos (by constructor <;> omega)]
        simp only [Option.some.injEq, Prod.mk.injEq]
        constructor <;> omega⟩
    · exact ⟨(-1, 1), by simp [nbrOffsets], by
        rw [if_pos (by constructor <;> omega)]
        simp only [Option.some.injEq, Prod.mk.injEq]
        constructor <;> omega⟩
    · exact ⟨(0, -1), by simp [nbrOffsets], by
        rw [if_pos (by constructor <;> omega)]
        simp only [Option.some.injEq, Prod.mk.injEq]
        constructor <;> omega⟩
    · exact absurd (by omega : px = qx ∧ py = qy) hne2
    · exact ⟨(0, 1), by simp [nbrOffsets], by
        rw [if_pos (by constructor <;> omega)]
        simp only [Option.some.injEq, Prod.mk.injEq]
        constructor <;> omega⟩
    · exact ⟨(1, -1), by simp [nbrOffsets], by
        rw [if_pos (by constructor <;> omega)]
        simp only [Option.some.injEq, Prod.mk.injEq]
        constructor <;> omega⟩
    · exact ⟨(1, 0), by simp [nbrOffsets], by
        rw [if_pos (by constructor <;> omega)]
        simp only [Option.some.injEq, Prod.mk.injEq]
        constructor <;> omega⟩
    · exact ⟨(1, 1), by simp [nbrOffsets], by
        rw [if_pos (by constructor <;> omega)]
        simp only [Option.some.injEq, Prod.mk.injEq]
        constructor <;> omega⟩

lemma adjPt_symm {p q : Pt} (h : adjPt p q) : adjPt q p := by
  obtain ⟨h1, h2, h3⟩ := h
  exact ⟨h1.symm, by omega, by omega⟩

lemma stepPix_symm {img : ImageData} {p q : Pt} (h : stepPix img p q) :
    stepPix img q p :=
  ⟨h.2.1, h.1, adjPt_symm h.2.2⟩

lemma conn_symm {img : ImageData} {p q : Pt} (h : Conn img p q) : Conn img q p := by
  induction h with
  | refl => exact Relation.ReflTransGen.refl
  | tail _ hstep ih => exact Relation.ReflTransGen.head (stepPix_symm hstep) ih

lemma conn_on {img : ImageData} {p q : Pt} (hp : onPix img p) (h : Conn img p q) :
    onPix img q := by
  induction h with
  | refl => exact hp
  | tail _ hstep _ => exact hstep.2.1

lemma closed_conn {img : ImageData} {L : List Pt}
    (hcl : ∀ v ∈ L, ∀ q : Pt, stepPix img v q → q ∈ L) {p q : Pt}
    (hp : p ∈ L) (h : Conn img p q) : q ∈ L := by
  induction h with
  | refl => exact hp
  | tail hpu hstep ih => exact hcl _ ih _ hstep

lemma conn_comp_eq {img : ImageData} {p t : Pt} (h : Conn img t p) :
    ConnComp img p = ConnComp img t := by
  ext q
  constructor
  · intro hq
    exact Relation.ReflTransGen.trans h hq
  · intro hq
    exact Relation.ReflTransGen.trans (conn_symm h) hq

lemma step_iff_stepNbrs {img : ImageData} {v : Pt} (hv : onPix img v) (q : Pt) :
    stepPix img v q ↔ q ∈ stepNbrs img v := by
  unfold stepNbrs
  rw [List.mem_filter, nbrs_mem_iff, decide_eq_true_iff]
  constructor
  · rintro ⟨_, hq, hadj⟩
    exact ⟨⟨hadj, hq.1, hq.2.1⟩, hq.2.2⟩
  · rintro ⟨⟨hadj, h1, h2⟩, h3⟩
    exact ⟨hv, ⟨h1, h2, h3⟩, hadj⟩

lemma conn_of_mem_reachIter {img : ImageData} {p : Pt} (hp : onPix img p) :
    ∀ (n : ℕ) (L : List Pt), (∀ u ∈ L, Conn img p u) →
      ∀ q ∈ reachIter img n L, Conn img p q := by
  intro n
  induction n with
  | zero =>
    intro L hL q hq
    exact hL q hq
  | succ m ih =>
    intro L hL q hq
    refine ih _ ?_ q hq
    intro u hu
    rw [List.mem_dedup, List.mem_flatMap] at hu
    obtain ⟨v, hv, hu⟩ := hu
    rcases List.mem_cons.mp hu with rfl | hu
    · exact hL _ hv
    · have hconn := hL v hv
      have hon : onPix img v := conn_on hp hconn
      exact Relation.ReflTransGen.tail hconn ((step_iff_stepNbrs hon u).mpr hu)

lemma gridF_mem (w h : ℕ) (p : Pt) : p ∈ gridF w h ↔ p.1 < w ∧ p.2 < h := by
  unfold gridF
  rw [Finset.mem_product]
  simp

lemma nbrs_length_le (w h : ℕ) (p : Pt) : (nbrs w h p).length ≤ 8 := by
  unfold nbrs
  exact le_trans (List.length_filterMap_le _ _) (by rfl)

lemma filter_visited_card (w h : ℕ) (visited : List Pt) (p : Pt)
    (hp1 : p.1 < w) (hp2 : p.2 < h) (hv : p ∉ visited) :
    ((gridF w h).filter (fun q => q ∉ p :: visited)).card + 1
      = ((gridF w h).filter (fun q => q ∉ visited)).card := by
  have hset : (gridF w h).filter (fun q => q ∉ p :: visited)
      = ((gridF w h).filter (fun q => q ∉ visited)).erase p := by
    ext q
    simp only [Finset.mem_filter, Finset.mem_erase, List.mem_cons, not_or]
    tauto
  rw [hset, Finset.card_erase_of_mem
    (Finset.mem_filter.mpr ⟨(gridF_mem w h p).mpr ⟨hp1, hp2⟩, hv⟩)]
  have hmem : p ∈ (gridF w h).filter (fun q => q ∉ visited) :=
    Finset.mem_filter.mpr ⟨(gridF_mem w h p).mpr ⟨hp1, hp2⟩, hv⟩
  have := Finset.card_pos.mpr ⟨p, hmem⟩
  omega

lemma traceAux_master (img : ImageData) (S : Set Pt) (visited0 : List Pt)
    (hS0 : ∀ v ∈ visited0, v ∉ S)
    (hSc : ∀ a b : Pt, a ∈ S → stepPix img a b → b ∈ S) :
    ∀ (fuel : ℕ) (stack visited points : List Pt),
      TraceInv img S visited0 stack visited points →
      traceMeasure img.width img.height stack visited ≤ fuel →
      TraceInv img S visited0 []
          (traceAux img fuel stack visited points).2
          (traceAux img fuel stack visited points).1 ∧
      (∀ p : Pt, p ∈ stack ∨ p ∈ visited →
        p ∈ (traceAux img fuel stack visited points).2) := by
  intro fuel
  induction fuel with
  | zero =>
    intro stack visited points hinv hm
    have hlen : stack = [] := by
      unfold traceMeasure at hm
      have : stack.length = 0 := by omega
      exact List.length_eq_zero.mp this
    subst hlen
    refine ⟨hinv, ?_⟩
    rintro q (hq | hq)
    · simp at hq
    · exact hq
  | succ n ih =>
    intro stack visited points hinv hm
    rcases stack with _ | ⟨p, rest⟩
    · refine ⟨hinv, ?_⟩
      rintro q (hq | hq)
      · simp at hq
      · exact hq
    · obtain ⟨hstack, hvis, hv0, hpts, hnd, hfr⟩ := hinv
      have hp := hstack p (List.mem_cons_self p rest)
      have hpb : p.1 < img.width ∧ p.2 < img.height := ⟨hp.1.1, hp.1.2.1⟩
      by_cases hv : p ∈ visited
      · have heq : traceAux img (n + 1) (p :: rest) visited points
            = traceAux img n rest visited points := by
          simp only [traceAux, if_pos hv]
        rw [heq]
        have hinv2 : TraceInv img S visited0 rest visited points := by
          refine ⟨?_, hvis, hv0, hpts, hnd, ?_⟩
          · intro q hq
            exact hstack q (List.mem_cons_of_mem _ hq)
          · intro u hu hu0 q hq
            rcases hfr u hu hu0 q hq with h | h
            · exact Or.inl h
            · rcases List.mem_cons.mp h with rfl | h
              · exact Or.inl hv
              · exact Or.inr h
        have hm2 : traceMeasure img.width img.height rest visited ≤ n := by
          unfold traceMeasure at hm ⊢
          simp only [List.length_cons] at hm
          omega
        obtain ⟨hi1, hi2⟩ := ih rest visited points hinv2 hm2
        refine ⟨hi1, ?_⟩
        rintro q (hq | hq)
        · rcases List.mem_cons.mp hq with rfl | hq
          · exact hi2 q (Or.inr hv)
          · exact hi2 q (Or.inl hq)
        · exact hi2 q (Or.inr hq)
      · have hOn : 128 < img.data ((p.2 * img.width + p.1) * 4) := hp.1.2.2
        have heq : traceAux img (n + 1) (p :: rest) visited points
            = traceAux img n
                (((nbrs img.width img.height p).filter
                  (fun q => decide (q ∉ p :: visited ∧
                    128 < img.data ((q.2 * img.width + q.1) * 4)))).reverse ++ rest)
                (p :: visited) (points ++ [p]) := by
          simp only [traceAux, if_neg hv, if_pos hOn]
        rw [heq]
        have hpush : ∀ q : Pt, q ∈ (nbrs img.width img.height p).filter
            (fun q => decide (q ∉ p :: visited ∧
              128 < img.data ((q.2 * img.width + q.1) * 4))) ↔
            (q ∈ nbrs img.width img.height p ∧ q ∉ p :: visited ∧
              128 < img.data ((q.2 * img.width + q.1) * 4)) := by
          intro q
          rw [List.mem_filter, decide_eq_true_iff]
        have hpushOn : ∀ q : Pt, q ∈ (nbrs img.width img.height p).filter
            (fun q => decide (q ∉ p :: visited ∧
              128 < img.data ((q.2 * img.width + q.1) * 4))) →
            onPix img q ∧ q ∈ S := by
          intro q hq
          rw [hpush] at hq
          have hnb := (nbrs_mem_iff _ _ _ _).mp hq.1
          have honq : onPix img q := ⟨hnb.2.1, hnb.2.2, hq.2.2⟩
          exact ⟨honq, hSc p q hp.2 ⟨hp.1, honq, hnb.1⟩⟩
        have hpv0 : p ∉ visited0 := by
          intro hcon
          exact hS0 p hcon hp.2
        have hinv2 : TraceInv img S visited0
            (((nbrs img.width img.height p).filter
              (fun q => decide (q ∉ p :: visited ∧
                128 < img.data ((q.2 * img.width + q.1) * 4)))).reverse ++ rest)
            (p :: visited) (points ++ [p]) := by
          refine ⟨?_, ?_, ?_, ?_, ?_, ?_⟩
          · intro q hq
            rcases List.mem_append.mp hq with hq | hq
            · exact hpushOn q (List.mem_reverse.mp hq)
            · exact hstack q (List.mem_cons_of_mem _ hq)
          · intro q hq hq0
            rcases List.mem_cons.mp hq with rfl | hq
            · exact ⟨hp.1, hp.2⟩
            · exact hvis q hq hq0
          · intro q hq
            exact List.mem_cons_of_mem _ (hv0 q hq)
          · intro q
            rw [List.mem_append, List.mem_singleton, hpts, List.mem_cons]
            constructor
            · rintro (⟨hq1, hq2⟩ | rfl)
              · exact ⟨Or.inr hq1, hq2⟩
              · exact ⟨Or.inl rfl, hpv0⟩
            · rintro ⟨rfl | hq1, hq2⟩
              · exact Or.inr rfl
              · exact Or.inl ⟨hq1, hq2⟩
          · rw [List.nodup_append]
            refine ⟨hnd, List.nodup_singleton p, ?_⟩
            intro a ha hb
            rw [List.mem_singleton] at hb
            subst hb
            exact hv ((hpts a).mp ha).1
          · intro u hu hu0 q hq
            rcases List.mem_cons.mp hu with rfl | hu
            · -- here u is the pixel just popped; its on-neighbors were
              -- pushed unless already visited
              have honq : onPix img q := hq.2.1
              have hnb : q ∈ nbrs img.width img.height u :=
                (nbrs_mem_iff _ _ _ _).mpr ⟨hq.2.2, honq.1, honq.2.1⟩
              by_cases hqv : q ∈ u :: visited
              · exact Or.inl hqv
              · refine Or.inr (List.mem_append.mpr (Or.inl ?_))
                rw [List.mem_reverse, hpush]
                exact ⟨hnb, hqv, honq.2.2⟩
            · rcases hfr u hu hu0 q hq with h | h
              · exact Or.inl (List.mem_cons_of_mem _ h)
              · rcases List.mem_cons.mp h with rfl | h
                · exact Or.inl (List.mem_cons_self _ _)
                · exact Or.inr (List.mem_append.mpr (Or.inr h))
        have hm2 : traceMeasure img.width img.height
            (((nbrs img.width img.height p).filter
              (fun q => decide (q ∉ p :: visited ∧
                128 < img.data ((q.2 * img.width + q.1) * 4)))).reverse ++ rest)
            (p :: visited) ≤ n := by
          unfold traceMeasure at hm ⊢
          have hcard := filter_visited_card img.width img.height visited p hpb.1 hpb.2 hv
          have hlf : (((nbrs img.width img.height p).filter
              (fun q => decide (q ∉ p :: visited ∧
                128 < img.data ((q.2 * img.width + q.1) * 4)))).length) ≤ 8 :=
            le_trans (List.length_filter_le _ _) (nbrs_length_le _ _ _)
          rw [List.length_append, List.length_reverse]
          simp only [List.length_cons] at hm
          omega
        obtain ⟨hi1, hi2⟩ := ih _ _ _ hinv2 hm2
        refine ⟨hi1, ?_⟩
        rintro q (hq | hq)
        · rcases List.mem_cons.mp hq with rfl | hq
          · exact hi2 q (Or.inr (List.mem_cons_self _ _))
          · exact hi2 q (Or.inl (List.mem_append.mpr (Or.inr hq)))
        · exact hi2 q (Or.inr (List.mem_cons_of_mem _ hq))

lemma traceLine_spec (img : ImageData) (x y : ℕ) (visited0 : List Pt)
    (hstart : onPix img (x, y))
    (hdisj : ∀ v ∈ visited0, v ∉ ConnComp img (x, y)) :
    (∀ q : Pt, q ∈ (traceLine img x y visited0).1 ↔ q ∈ ConnComp img (x, y)) ∧
    (traceLine img x y visited0).1.Nodup ∧
    (∀ q : Pt, q ∈ (traceLine img x y visited0).2 ↔
      (q ∈ visited0 ∨ q ∈ ConnComp img (x, y))) := by
  have hSc : ∀ a b : Pt, a ∈ ConnComp img (x, y) → stepPix img a b →
      b ∈ ConnComp img (x, y) :=
    fun a b ha hab => Relation.ReflTransGen.tail ha hab
  have hinv0 : TraceInv img (ConnComp img (x, y)) visited0 [(x, y)] visited0 [] := by
    refine ⟨?_, ?_, ?_, ?_, List.nodup_nil, ?_⟩
    · intro p hp
      rw [List.mem_singleton] at hp
      subst hp
      exact ⟨hstart, Relation.ReflTransGen.refl⟩
    · intro p hp hp0
      exact absurd hp hp0
    · intro p hp
      exact hp
    · intro p
      constructor
      · intro hp
        simp at hp
      · rintro ⟨hp, hp0⟩
        exact absurd hp hp0
    · intro u hu hu0
      exact absurd hu hu0
  have hm0 : traceMeasure img.width img.height [(x, y)] visited0
      ≤ 9 * (img.width * img.height) + 1 := by
    unfold traceMeasure
    have h1 : ((gridF img.width img.height).filter (fun p => p ∉ visited0)).card
        ≤ img.width * img.height := by
      refine le_trans (Finset.card_filter_le _ _) ?_
      unfold gridF
      rw [Finset.card_product]
      simp
    simp only [List.length_singleton]
    omega
  obtain ⟨⟨hstk, hvis, hv0, hpts, hnd, hfr⟩, hB⟩ :=
    traceAux_master img (ConnComp img (x, y)) visited0 hdisj hSc
      (9 * (img.width * img.height) + 1) [(x, y)] visited0 [] hinv0 hm0
  have hcompl : ∀ q : Pt, q ∈ ConnComp img (x, y) →
      q ∈ (traceAux img (9 * (img.width * img.height) + 1)
        [(x, y)] visited0 []).2 ∧ q ∉ visited0 := by
    intro q hq
    have hq2 : Conn img (x, y) q := hq
    clear hq
    induction hq2 with
    | refl =>
      refine ⟨hB (x, y) (Or.inl (List.mem_singleton.mpr rfl)), ?_⟩
      intro hc
      exact hdisj _ hc Relation.ReflTransGen.refl
    | tail hconn hstep ih =>
      obtain ⟨hb2, hb0⟩ := ih
      rcases hfr _ hb2 hb0 _ hstep with h | h
      · refine ⟨h, ?_⟩
        intro hc0
        exact hdisj _ hc0 (Relation.ReflTransGen.tail hconn hstep)
      · simp at h
  refine ⟨?_, hnd, ?_⟩
  · intro q
    constructor
    · intro hq
      exact (hvis q ((hpts q).mp hq).1 ((hpts q).mp hq).2).2
    · intro hq
      obtain ⟨h2, h0⟩ := hcompl q hq
      exact (hpts q).mpr ⟨h2, h0⟩
  · intro q
    constructor
    · intro hq
      by_cases hq0 : q ∈ visited0
      · exact Or.inl hq0
      · exact Or.inr (hvis q hq hq0).2
    · rintro (hq | hq)
      · exact hv0 q hq
      · exact (hcompl q hq).1

lemma list_ncard (l : List Pt) (S : Set Pt) (h : ∀ q : Pt, q ∈ l ↔ q ∈ S)
    (hn : l.Nodup) : S.ncard = l.length := by
  have hS : S = ↑l.toFinset := by
    ext q
    rw [List.coe_toFinset]
    exact (h q).symm
  rw [hS, Set.ncard_coe_Finset]
  exact List.toFinset_card_of_nodup hn

lemma ptQ_inj : Function.Injective ptQ := by
  rintro ⟨a, b⟩ ⟨c, d⟩ h
  unfold ptQ at h
  simp only [Point.mk.injEq] at h
  have h1 : a = c := by exact_mod_cast h.1
  have h2 : b = d := by exact_mod_cast h.2
  simp [h1, h2]

lemma visited_after_trace (img : ImageData) (p : Pt) (V : List Pt)
    (hV : ∀ v ∈ V, onPix img v ∧ ∀ q : Pt, Conn img v q → q ∈ V)
    (hstart : onPix img p)
    (hdisj : ∀ v ∈ V, v ∉ ConnComp img p)
    (hvis : ∀ q : Pt, q ∈ (traceLine img p.1 p.2 V).2 ↔
      (q ∈ V ∨ q ∈ ConnComp img p)) :
    ∀ v ∈ (traceLine img p.1 p.2 V).2, onPix img v ∧
      ∀ q : Pt, Conn img v q → q ∈ (traceLine img p.1 p.2 V).2 := by
  intro v hv
  rcases (hvis v).mp hv with h | h
  · exact ⟨(hV v h).1, fun q hq => (hvis q).mpr (Or.inl ((hV v h).2 q hq))⟩
  · refine ⟨conn_on hstart h, ?_⟩
    intro q hq
    exact (hvis q).mpr (Or.inr (Relation.ReflTransGen.trans h hq))

lemma disj_of_closed (img : ImageData) (p : Pt) (V : List Pt)
    (hV : ∀ v ∈ V, onPix img v ∧ ∀ q : Pt, Conn img v q → q ∈ V)
    (hpV : p ∉ V) :
    ∀ v ∈ V, v ∉ ConnComp img p := by
  intro v hv hconn
  exact hpV ((hV v hv).2 p (conn_symm hconn))

lemma extractGo_sound (img : ImageData) (minLen : ℤ) :
    ∀ (ps V : List Pt),
      (∀ p ∈ ps, p.1 < img.width ∧ p.2 < img.height) →
      (∀ v ∈ V, onPix img v ∧ ∀ q : Pt, Conn img v q → q ∈ V) →
      ∀ f ∈ extractGo img minLen ps V,
        f.type = .hull_profile ∧ f.confidence = 8 / 10 ∧
        ∃ (p : Pt) (l : List Pt), onPix img p ∧ f.points = l.map ptQ ∧
          (∀ q : Pt, q ∈ l ↔ q ∈ ConnComp img p) ∧ l.Nodup ∧
          minLen ≤ (l.length : ℤ) ∧ (∀ q ∈ V, q ∉ l) := by
  intro ps
  induction ps with
  | nil =>
    intro V hb hV f hf
    simp [extractGo] at hf
  | cons p ps ih =>
    intro V hb hV f hf
    by_cases htrig : 128 < img.data ((p.2 * img.width + p.1) * 4) ∧ p ∉ V
    · have hstart : onPix img p :=
        ⟨(hb p (List.mem_cons_self _ _)).1, (hb p (List.mem_cons_self _ _)).2, htrig.1⟩
      have hdisj : ∀ v ∈ V, v ∉ ConnComp img p := disj_of_closed img p V hV htrig.2
      have hspec := traceLine_spec img p.1 p.2 V hstart hdisj
      have hV2 := visited_after_trace img p V hV hstart hdisj hspec.2.2
      have hb2 : ∀ q ∈ ps, q.1 < img.width ∧ q.2 < img.height :=
        fun q hq => hb q (List.mem_cons_of_mem _ hq)
      rw [show extractGo img minLen (p :: ps) V
          = (if minLen ≤ ((traceLine img p.1 p.2 V).1.length : ℤ) then
              (⟨.hull_profile, (traceLine img p.1 p.2 V).1.map ptQ, 8 / 10⟩ : YachtFeature)
                :: extractGo img minLen ps (traceLine img p.1 p.2 V).2
            else extractGo img minLen ps (traceLine img p.1 p.2 V).2) from by
        simp only [extractGo, if_pos htrig]] at hf
      have htail : f ∈ extractGo img minLen ps (traceLine img p.1 p.2 V).2 →
          f.type = .hull_profile ∧ f.confidence = 8 / 10 ∧
          ∃ (p2 : Pt) (l : List Pt), onPix img p2 ∧ f.points = l.map ptQ ∧
            (∀ q : Pt, q ∈ l ↔ q ∈ ConnComp img p2) ∧ l.Nodup ∧
            minLen ≤ (l.length : ℤ) ∧ (∀ q ∈ V, q ∉ l) := by
        intro hmem
        obtain ⟨h1, h2, p2, l, h3, h4, h5, h6, h7, h8⟩ :=
          ih (traceLine img p.1 p.2 V).2 hb2 hV2 f hmem
        refine ⟨h1, h2, p2, l, h3, h4, h5, h6, h7, ?_⟩
        intro q hq
        exact h8 q ((hspec.2.2 q).mpr (Or.inl hq))
      split_ifs at hf with hlen
      · rcases List.mem_cons.mp hf with rfl | hf
        · refine ⟨rfl, rfl, p, (traceLine img p.1 p.2 V).1, hstart, rfl,
            hspec.1, hspec.2.1, hlen, ?_⟩
          intro q hq hql
          exact hdisj q hq ((hspec.1 q).mp hql)
        · exact htail hf
      · exact htail hf
    · rw [show extractGo img minLen (p :: ps) V = extractGo img minLen ps V from by
        simp only [extractGo, if_neg htrig]] at hf
      exact ih V (fun q hq => hb q (List.mem_cons_of_mem _ hq)) hV f hf

lemma extractGo_count_zero_mem (img : ImageData) (minLen : ℤ) (ps V : List Pt)
    (hb : ∀ p ∈ ps, p.1 < img.width ∧ p.2 < img.height)
    (hV : ∀ v ∈ V, onPix img v ∧ ∀ q : Pt, Conn img v q → q ∈ V)
    (t : Pt) (htV : t ∈ V) :
    (extractGo img minLen ps V).countP (fun f => decide (ptQ t ∈ f.points)) = 0 := by
  rw [List.countP_eq_zero]
  intro f hf
  obtain ⟨_, _, p2, l, _, hpts, _, _, _, hdisj⟩ :=
    extractGo_sound img minLen ps V hb hV f hf
  rw [decide_eq_true_iff, hpts]
  intro hmem
  obtain ⟨q, hq, hqeq⟩ := List.mem_map.mp hmem
  exact hdisj t htV (ptQ_inj hqeq ▸ hq)

lemma extractGo_count_zero_small (img : ImageData) (minLen : ℤ) (ps V : List Pt)
    (hb : ∀ p ∈ ps, p.1 < img.width ∧ p.2 < img.height)
    (hV : ∀ v ∈ V, onPix img v ∧ ∀ q : Pt, Conn img v q → q ∈ V)
    (t : Pt) (hsmall : ((ConnComp img t).ncard : ℤ) < minLen) :
    (extractGo img minLen ps V).countP (fun f => decide (ptQ t ∈ f.points)) = 0 := by
  rw [List.countP_eq_zero]
  intro f hf
  obtain ⟨_, _, p2, l, _, hpts, hiff, hnd, hlen, _⟩ :=
    extractGo_sound img minLen ps V hb hV f hf
  rw [decide_eq_true_iff, hpts]
  intro hmem
  obtain ⟨q, hq, hqeq⟩ := List.mem_map.mp hmem
  have htl : t ∈ l := ptQ_inj hqeq ▸ hq
  have hSeq : ConnComp img p2 = ConnComp img t :=
    conn_comp_eq (conn_symm ((hiff t).mp htl))
  have := list_ncard l (ConnComp img p2) (fun q => hiff q) hnd
  rw [hSeq] at this
  omega

lemma extractGo_count_one (img : ImageData) (minLen : ℤ) (t : Pt)
    (hton : onPix img t) (hbig : minLen ≤ ((ConnComp img t).ncard : ℤ)) :
    ∀ (ps V : List Pt),
      (∀ p ∈ ps, p.1 < img.width ∧ p.2 < img.height) →
      (∀ v ∈ V, onPix img v ∧ ∀ q : Pt, Conn img v q → q ∈ V) →
      t ∉ V → (∃ p ∈ ps, Conn img t p) →
      (extractGo img minLen ps V).countP (fun f => decide (ptQ t ∈ f.points)) = 1 := by
  intro ps
  induction ps with
  | nil =>
    intro V _ _ _ hex
    simp at hex
  | cons p ps ih =>
    intro V hb hV htV hex
    have hb2 : ∀ q ∈ ps, q.1 < img.width ∧ q.2 < img.height :=
      fun q hq => hb q (List.mem_cons_of_mem _ hq)
    by_cases htrig : 128 < img.data ((p.2 * img.width + p.1) * 4) ∧ p ∉ V
    · have hstart : onPix img p :=
        ⟨(hb p (List.mem_cons_self _ _)).1, (hb p (List.mem_cons_self _ _)).2, htrig.1⟩
      have hdisj := disj_of_closed img p V hV htrig.2
      have hspec := traceLine_spec img p.1 p.2 V hstart hdisj
      have hV2 := visited_after_trace img p V hV hstart hdisj hspec.2.2
      rw [show extractGo img minLen (p :: ps) V
          = (if minLen ≤ ((traceLine img p.1 p.2 V).1.length : ℤ) then
              (⟨.hull_profile, (traceLine img p.1 p.2 V).1.map ptQ, 8 / 10⟩ : YachtFeature)
                :: extractGo img minLen ps (traceLine img p.1 p.2 V).2
            else extractGo img minLen ps (traceLine img p.1 p.2 V).2) from by
        simp only [extractGo, if_pos htrig]]
      by_cases hconn : Conn img t p
      · have hSeq : ConnComp img p = ConnComp img t := conn_comp_eq hconn
        have hlen : (ConnComp img p).ncard = (traceLine img p.1 p.2 V).1.length :=
          list_ncard _ _ hspec.1 hspec.2.1
        have hemit : minLen ≤ (((traceLine img p.1 p.2 V).1.length : ℕ) : ℤ) := by
          rw [← hlen, hSeq]
          exact hbig
        rw [if_pos hemit, List.countP_cons]
        have hin : ptQ t ∈ (traceLine img p.1 p.2 V).1.map ptQ :=
          List.mem_map_of_mem _ ((hspec.1 t).mpr (conn_symm hconn))
        have htail0 : (extractGo img minLen ps (traceLine img p.1 p.2 V).2).countP
            (fun f => decide (ptQ t ∈ f.points)) = 0 :=
          extractGo_count_zero_mem img minLen ps _ hb2 hV2 t
            ((hspec.2.2 t).mpr (Or.inr (conn_symm hconn)))
        rw [htail0]
        simp [hin]
      · have hex2 : ∃ p2 ∈ ps, Conn img t p2 := by
          obtain ⟨p2, hp2, hc2⟩ := hex
          rcases List.mem_cons.mp hp2 with rfl | hp2
          · exact absurd hc2 hconn
          · exact ⟨p2, hp2, hc2⟩
        have htV2 : t ∉ (traceLine img p.1 p.2 V).2 := by
          intro hc
          rcases (hspec.2.2 t).mp hc with h | h
          · exact htV h
          · exact hconn (conn_symm h)
        have hrec := ih (traceLine img p.1 p.2 V).2 hb2 hV2 htV2 hex2
        split_ifs with hemit
        · rw [List.countP_cons, hrec]
          have hnotin : ptQ t ∉ (traceLine img p.1 p.2 V).1.map ptQ := by
            intro hc
            obtain ⟨q, hq, hqeq⟩ := List.mem_map.mp hc
            exact hconn (conn_symm ((hspec.1 t).mp (ptQ_inj hqeq ▸ hq)))
          simp [hnotin]
        · exact hrec
    · rw [show extractGo img minLen (p :: ps) V = extractGo img minLen ps V from by
        simp only [extractGo, if_neg htrig]]
      have hex2 : ∃ p2 ∈ ps, Conn img t p2 := by
        obtain ⟨p2, hp2, hc2⟩ := hex
        rcases List.mem_cons.mp hp2 with rfl | hp2
        · exfalso
          push_neg at htrig
          by_cases hoff : 128 < img.data ((p2.2 * img.width + p2.1) * 4)
          · exact htV ((hV p2 (htrig hoff)).2 t (conn_symm hc2))
          · exact hoff (conn_on hton hc2).2.2
        · exact ⟨p2, hp2, hc2⟩
      exact ih V hb2 hV htV hex2

lemma rasterPts_mem (w h : ℕ) (p : Pt) :
    p ∈ rasterPts w h ↔ p.1 < w ∧ p.2 < h := by
  rcases p with ⟨px, py⟩
  unfold rasterPts
  rw [List.mem_flatMap]
  constructor
  · rintro ⟨y, hy, hm⟩
    rw [List.mem_map] at hm
    obtain ⟨x, hx, heq⟩ := hm
    rw [List.mem_range] at hy hx
    simp only [Prod.mk.injEq] at heq
    exact ⟨heq.1 ▸ hx, heq.2 ▸ hy⟩
  · rintro ⟨h1, h2⟩
    exact ⟨py, List.mem_range.mpr h2,
      List.mem_map.mpr ⟨px, List.mem_range.mpr h1, rfl⟩⟩

/-- Claim C1: extractLinesFromEdges returns exactly one hull_profile
Feature of confidence 0.8 per 8-connected component of on pixels
(red channel above 128) whose pixel count reaches minLineLength: every
returned Feature enumerates the pixels of one component, each exactly
once; a pixel of a component of at least minLineLength pixels lies in
exactly one Feature; a pixel of a smaller component lies in none.  On the
concrete 15-pixel straight line, minLineLength 10 yields exactly one
Feature with 15 points and minLineLength 20 yields no Feature. -/
theorem C1_line_tracer_components :
    (∀ (img : ImageData) (minLen : ℤ) (f : YachtFeature),
      f ∈ extractLinesFromEdges img minLen →
      f.type = .hull_profile ∧ f.confidence = 8 / 10 ∧
      ∃ p : Pt, onPix img p ∧
        (∀ q : Pt, ptQ q ∈ f.points ↔ q ∈ ConnComp img p) ∧
        f.points.Nodup ∧ minLen ≤ (f.points.length : ℤ)) ∧
    (∀ (img : ImageData) (minLen : ℤ) (t : Pt), onPix img t →
      minLen ≤ ((ConnComp img t).ncard : ℤ) →
      (extractLinesFromEdges img minLen).countP
        (fun f => decide (ptQ t ∈ f.points)) = 1) ∧
    (∀ (img : ImageData) (minLen : ℤ) (t : Pt), onPix img t →
      ((ConnComp img t).ncard : ℤ) < minLen →
      (extractLinesFromEdges img minLen).countP
        (fun f => decide (ptQ t ∈ f.points)) = 0) ∧
    ((extractLinesFromEdges img15 10).map (fun f => f.points.length) = [15] ∧
      extractLinesFromEdges img15 20 = []) := by
  have hV0 : ∀ img : ImageData, ∀ v ∈ ([] : List Pt), onPix img v ∧
      ∀ q : Pt, Conn img v q → q ∈ ([] : List Pt) := by
    intro img v hv
    simp at hv
  have hb0 : ∀ img : ImageData, ∀ p ∈ rasterPts img.width img.height,
      p.1 < img.width ∧ p.2 < img.height :=
    fun img p hp => (rasterPts_mem _ _ p).mp hp
  refine ⟨?_, ?_, ?_, by decide, by decide⟩
  · intro img minLen f hf
    obtain ⟨h1, h2, p, l, hp, hfp, hiff, hnd, hlen, _⟩ :=
      extractGo_sound img minLen (rasterPts img.width img.height) []
        (hb0 img) (hV0 img) f hf
    refine ⟨h1, h2, p, hp, ?_, ?_, ?_⟩
    · intro q
      rw [hfp]
      constructor
      · intro hm
        obtain ⟨q2, hq2, he⟩ := List.mem_map.mp hm
        exact (hiff q).mp (ptQ_inj he ▸ hq2)
      · intro hS
        exact List.mem_map_of_mem _ ((hiff q).mpr hS)
    · rw [hfp]
      exact hnd.map ptQ_inj
    · rw [hfp, List.length_map]
      exact hlen
  · intro img minLen t hton hbig
    refine extractGo_count_one img minLen t hton hbig
      (rasterPts img.width img.height) [] (hb0 img) (hV0 img) (by simp) ?_
    exact ⟨t, (rasterPts_mem _ _ t).mpr ⟨hton.1, hton.2.1⟩, Relation.ReflTransGen.refl⟩
  · intro img minLen t hton hsmall
    exact extractGo_count_zero_small img minLen (rasterPts img.width img.height) []
      (hb0 img) (hV0 img) t hsmall

lemma comp15_closed : ∀ v ∈ comp15, ∀ q : Pt, stepPix img15 v q → q ∈ comp15 := by
  have hdec : ∀ v ∈ comp15, ∀ q ∈ stepNbrs img15 v, q ∈ comp15 := by decide
  intro v hv q hq
  exact hdec v hv q ((step_iff_stepNbrs hq.1 q).mp hq)

lemma comp15_ncard : (ConnComp img15 (0, 0)).ncard = 15 := by
  have hsub1 : ∀ q ∈ comp15, Conn img15 (0, 0) q := by
    have hreach : ∀ q ∈ comp15, q ∈ reachIter img15 14 [(0, 0)] := by decide
    intro q hq
    refine conn_of_mem_reachIter (by decide) 14 [(0, 0)] ?_ q (hreach q hq)
    intro u hu
    rw [List.mem_singleton] at hu
    subst hu
    exact Relation.ReflTransGen.refl
  have hsub2 : ∀ q : Pt, Conn img15 (0, 0) q → q ∈ comp15 :=
    fun q hq => closed_conn comp15_closed (by decide) hq
  have := list_ncard comp15 (ConnComp img15 (0, 0))
    (fun q => ⟨fun h => hsub1 q h, fun h => hsub2 q h⟩) (by decide)
  rw [this]
  rfl

/-- Witness for C1 at the 15-pixel line image and the on pixel (0,0). -/
theorem C1_witness :
    (onPix img15 (0, 0) ∧ (10 : ℤ) ≤ ((ConnComp img15 (0, 0)).ncard : ℤ) ∧
      ((ConnComp img15 (0, 0)).ncard : ℤ) < 20) ∧
    (extractLinesFromEdges img15 10).countP
      (fun f => decide (ptQ (0, 0) ∈ f.points)) = 1 ∧
    (extractLinesFromEdges img15 20).countP
      (fun f => decide (ptQ (0, 0) ∈ f.points)) = 0 :=
  ⟨⟨by decide, by rw [comp15_ncard]; norm_num, by rw [comp15_ncard]; norm_num⟩,
    C1_line_tracer_components.2.1 img15 10 (0, 0) (by decide)
      (by rw [comp15_ncard]; norm_num),
    C1_line_tracer_components.2.2.1 img15 20 (0, 0) (by decide)
      (by rw [comp15_ncard]; norm_num)⟩
